import Mathlib

/-!
Verification of the Co-Agent-Recruitment extraction pipeline.

This file shallowly embeds the Python modules of the repository
(`co_agent_recruitment/agent.py`, `job_posting/agent.py`, `json_agents.py`,
`firestore_session_service.py`, `tools/pubsub.py`, `event_publisher.py`,
`utils/retry.py`) as executable Lean definitions and proves the spec claims
about them.  Conventions of the embedding:

* Python runtime values that the embedded code inspects are `PyVal`;
  raised exceptions are `PyExc` and fallible code returns `Except PyExc _`.
* The external LLM inference endpoint is an oracle parameter of type
  `Model := PyVal → Except PyExc Json`; a model call either returns the
  already-dumped structured output or raises.
* Wall-clock timestamps and generated UUIDs are passed in as parameters
  (`now`, `freshId`): the code treats them as opaque strings.
* JSON trees are `Json`; numbers are modelled as arbitrary-precision
  integers (floating-point textual round-trips are outside the embedding).
-/

namespace CoAgentRecruitment

/-- Python runtime values, as far as the embedded functions inspect them. -/
inductive PyVal where
  | str (s : String)
  | pynone
  | int (n : Int)
  | list (xs : List PyVal)
  | pybool (b : Bool)

/-- Python exceptions raised by the embedded code, keyed by exception class. -/
inductive PyExc where
  | valueError (m : String)
  | typeError (m : String)
  | validationError (m : String)
  | otherError (m : String)
deriving Repr, DecidableEq

/-- Python `type(e).__name__` for the modelled exception classes. -/
def PyExc.typeName : PyExc → String
  | .valueError _ => "ValueError"
  | .typeError _ => "TypeError"
  | .validationError _ => "ValidationError"
  | .otherError _ => "Exception"

/-- Message carried by a modelled exception (`str(e)`). -/
def PyExc.msg : PyExc → String
  | .valueError m => m
  | .typeError m => m
  | .validationError m => m
  | .otherError m => m

/-- Whether the exception is a pydantic `ValidationError` (matched by the
dedicated `except ValidationError` clause in `analyze_job_posting`). -/
def PyExc.isValidationError : PyExc → Bool
  | .validationError _ => true
  | _ => false

/-- Python truthiness (`not text` tests) for the modelled values. -/
def PyVal.isFalsy : PyVal → Bool
  | .str s => s.data.isEmpty
  | .pynone => true
  | .int n => n == 0
  | .list xs => xs.isEmpty
  | .pybool b => !b

/-- `x[:200]`, the slice taken by the pre-`try` logging f-string in both
`parse_resume` copies and in `analyze_job_posting`.  Slicing is defined for
strings and lists and raises `TypeError` for non-subscriptable values. -/
def pySliceTo200 : PyVal → Except PyExc PyVal
  | .str s => .ok (.str (String.mk (s.data.take 200)))
  | .list xs => .ok (.list (xs.take 200))
  | _ => .error (.typeError "object is not subscriptable")

/-! ### The sanitizer (`sanitize_input` in `co_agent_recruitment/agent.py`) -/

/-- Case-insensitive character equality, as used by `re.IGNORECASE`. -/
def charEqCI (a b : Char) : Bool := a.toLower == b.toLower

/-- Case-insensitive prefix test. -/
def isPrefixCI : List Char → List Char → Bool
  | [], _ => true
  | _ :: _, [] => false
  | p :: ps, c :: cs => charEqCI p c && isPrefixCI ps cs

/-- Drop characters up to and including the first occurrence of `t`;
`none` when `t` does not occur (the `[^>]*>` part of the script-tag regex). -/
def dropThroughChar (t : Char) : List Char → Option (List Char)
  | [] => Option.none
  | c :: cs => if c = t then some cs else dropThroughChar t cs

/-- Suffix after the first case-insensitive occurrence of `pat`;
`none` when `pat` does not occur. -/
def dropAfterCI (pat : List Char) : List Char → Option (List Char)
  | [] => Option.none
  | c :: cs =>
    if isPrefixCI pat (c :: cs) then some (List.drop pat.length (c :: cs))
    else dropAfterCI pat cs

/-- Leftmost-match attempt for `re.sub` pattern `<script[^>]*>.*?</script>`
(flags `IGNORECASE | DOTALL`) anchored at the head of the list: on a match,
returns the remainder after the closing tag. -/
def matchScriptAt (cs : List Char) : Option (List Char) :=
  if isPrefixCI "<script".toList cs then
    match dropThroughChar '>' (List.drop 7 cs) with
    | Option.none => Option.none
    | some afterOpen => dropAfterCI "</script>".toList afterOpen
  else Option.none

/-- Anchored case-insensitive literal match, for `re.sub(r"javascript:", ...)`. -/
def matchCIAt (pat : List Char) (cs : List Char) : Option (List Char) :=
  if isPrefixCI pat cs then some (List.drop pat.length cs) else Option.none

/-- Python `\w`. -/
def isWordChar (c : Char) : Bool := c.isAlphanum || c = '_'

/-- Anchored match for `re.sub(r"on\w+\s*=", ...)` (flag `IGNORECASE`). -/
def matchOnAt (cs : List Char) : Option (List Char) :=
  if isPrefixCI "on".toList cs then
    let rest := List.drop 2 cs
    if (rest.takeWhile isWordChar).isEmpty then Option.none
    else
      match (rest.dropWhile isWordChar).dropWhile (fun c => c.isWhitespace) with
      | c :: rest3 => if c = '=' then some rest3 else Option.none
      | [] => Option.none
  else Option.none

/-- Left-to-right removal of non-overlapping matches, the semantics of
`re.sub(pat, "", text)`.  The fuel starts at `length + 1`: every step either
emits one character or removes a non-empty match, so it never runs out. -/
def removeMatchesAux (m : List Char → Option (List Char)) :
    Nat → List Char → List Char
  | 0, cs => cs
  | _ + 1, [] => []
  | fuel + 1, c :: cs =>
    match m (c :: cs) with
    | some rem => removeMatchesAux m fuel rem
    | Option.none => c :: removeMatchesAux m fuel cs

/-- `re.sub(pat, "", text)` driver. -/
def removeMatches (m : List Char → Option (List Char)) (cs : List Char) :
    List Char :=
  removeMatchesAux m (cs.length + 1) cs

/-- Python `str.strip()`. -/
def pyStrip (cs : List Char) : List Char :=
  ((cs.dropWhile (fun c => c.isWhitespace)).reverse.dropWhile
      (fun c => c.isWhitespace)).reverse

/-- The three `re.sub` passes followed by `.strip()` from `sanitize_input`. -/
def scrubChars (cs : List Char) : List Char :=
  pyStrip (removeMatches matchOnAt
    (removeMatches (matchCIAt "javascript:".toList)
      (removeMatches matchScriptAt cs)))

/-- `sanitize_input` from `co_agent_recruitment/agent.py`: rejects falsy or
non-string input and input longer than 50,000 characters, then strips
script-like markup and trims whitespace. -/
def sanitize_input : PyVal → Except PyExc String
  | .str s =>
    if s.data.isEmpty then
      .error (.valueError "Invalid input: must be a non-empty string")
    else if 50000 < s.data.length then
      .error (.valueError "Input text too large")
    else
      .ok (String.mk (scrubChars s.data))
  | _ => .error (.valueError "Invalid input: must be a non-empty string")

/-! ### JSON trees and the extractors -/

/-- JSON values (the dumped structured output of the extractors and the
payloads of domain events).  Numbers are modelled as integers. -/
inductive Json where
  | null
  | bool (b : Bool)
  | num (n : Int)
  | str (s : String)
  | arr (elems : List Json)
  | obj (fields : List (String × Json))

/-- The external inference endpoint: from input value to dumped structured
output, or a raised exception.  `agent.run` + `model_dump` as one oracle. -/
abbrev Model := PyVal → Except PyExc Json

/-- The `session_info` sub-dict built by both extractors. -/
structure SessionInfo where
  operation_type : String
  timestamp : String
  processing_time : String
  model_used : Option String := Option.none
  error : Option String := Option.none

/-- The uniform result dict of the extractors: `resume_data` /
`job_posting_data` is `domain_data`; `error_details` only appears in the
failure branches of `analyze_job_posting`. -/
structure ExtractionResult where
  domain_data : Option Json
  session_info : SessionInfo
  operation_status : String
  error_details : Option String := Option.none

/-- Success dict built by `parse_resume` (agent.py lines 313-325). -/
def resumeSuccess (now modelName : String) (output_data : Json) :
    ExtractionResult :=
  { domain_data := some output_data
    session_info :=
      { operation_type := "resume_parsing", timestamp := now
        processing_time := "completed", model_used := some modelName }
    operation_status := "success" }

/-- Error dict built by the `except Exception` branch of `parse_resume`
(agent.py lines 338-350). -/
def resumeFailure (now : String) (e : PyExc) : ExtractionResult :=
  { domain_data := Option.none
    session_info :=
      { operation_type := "resume_parsing", timestamp := now
        processing_time := "failed"
        error := some ("Failed to parse resume: " ++ e.typeName) }
    operation_status := "error" }

/-- Body of the `try` block of `parse_resume`: sanitize, then invoke the
model on the sanitized text. -/
def parse_resume_try (model : Model) (resume_text : PyVal) :
    Except PyExc Json :=
  match sanitize_input resume_text with
  | .error e => .error e
  | .ok sanitized => model (.str sanitized)

/-- `parse_resume` from `co_agent_recruitment/agent.py` (the copy in
`resume_parser/agent.py` has the same structure).  The leading
`logging.info(f"... {resume_text[:200]} ...")` sits before the `try`
block, so its slice can raise; the `try` block wraps `sanitize_input`
and the model call and converts any exception into an error dict. -/
def parse_resume (now modelName : String) (model : Model)
    (resume_text : PyVal) : Except PyExc ExtractionResult :=
  match pySliceTo200 resume_text with
  | .error e => .error e
  | .ok _ =>
    match parse_resume_try model resume_text with
    | .ok output_data => .ok (resumeSuccess now modelName output_data)
    | .error e => .ok (resumeFailure now e)

/-- Success dict built by `analyze_job_posting` (job_posting/agent.py
lines 152-165). -/
def jobSuccess (now modelName : String) (output_data : Json) :
    ExtractionResult :=
  { domain_data := some output_data
    session_info :=
      { operation_type := "job_posting_analysis", timestamp := now
        processing_time := "completed", model_used := some modelName }
    operation_status := "success" }

/-- Dict built by the `except ValidationError` branch of
`analyze_job_posting` (job_posting/agent.py lines 171-196). -/
def jobValidationFailure (now errDetails : String) : ExtractionResult :=
  { domain_data := Option.none
    session_info :=
      { operation_type := "job_posting_analysis", timestamp := now
        processing_time := "failed"
        error := some "Pydantic validation failed" }
    operation_status := "validation_error"
    error_details := some errDetails }

/-- Dict built by the `except Exception` branch of `analyze_job_posting`
(job_posting/agent.py lines 197-217). -/
def jobFailure (now : String) (e : PyExc) : ExtractionResult :=
  { domain_data := Option.none
    session_info :=
      { operation_type := "job_posting_analysis", timestamp := now
        processing_time := "failed"
        error := some ("Unexpected error: " ++ e.typeName) }
    operation_status := "error"
    error_details := some e.msg }

/-- `analyze_job_posting` from `co_agent_recruitment/job_posting/agent.py`.
The leading `logger.info(f"... {job_posting[:200]} ...")` sits before the
`try` block; the raw (unsanitized) input goes straight to the model; a
pydantic `ValidationError` is mapped to status `"validation_error"`, any
other exception to `"error"`. -/
def analyze_job_posting (now modelName : String) (model : Model)
    (job_posting : PyVal) : Except PyExc ExtractionResult :=
  match pySliceTo200 job_posting with
  | .error e => .error e
  | .ok _ =>
    match model job_posting with
    | .ok output_data => .ok (jobSuccess now modelName output_data)
    | .error (.validationError m) => .ok (jobValidationFailure now m)
    | .error e => .ok (jobFailure now e)

/-! ### JSON-focused agents (`json_agents.py`) -/

/-- Keywords that suggest a job posting (json_agents.py lines 136-151). -/
def jobKeywords : List String :=
  ["responsibilities", "requirements", "qualifications", "we are seeking",
   "job description", "position", "role", "company", "salary", "benefits",
   "apply", "hiring", "candidate", "experience required"]

/-- Keywords that suggest a resume (json_agents.py lines 154-164). -/
def resumeKeywords : List String :=
  ["education", "work experience", "skills", "projects", "certifications",
   "objective", "summary", "achievements", "accomplishments"]

/-- Python substring containment (`keyword in text_lower`). -/
def isSubstr (pat : List Char) : List Char → Bool
  | [] => pat.isEmpty
  | c :: rest => pat.isPrefixOf (c :: rest) || isSubstr pat rest

/-- `text.lower()`. -/
def lowerChars (cs : List Char) : List Char := cs.map Char.toLower

/-- `sum(1 for keyword in kws if keyword in text_lower)`. -/
def countKeywords (kws : List String) (textLower : List Char) : Nat :=
  (kws.filter (fun k => isSubstr k.toList textLower)).length

/-- Result of `parse_resume_json` / `analyze_job_posting_json`: either the
extractor's own dict, or the wrapper's error dict (which is the only dict
with a top-level `"error"` key). -/
inductive WrappedResult where
  | result (r : ExtractionResult)
  | errorDict (error error_type message : String)

/-- Whether the dict has a top-level `"error"` key (`"error" in result`). -/
def WrappedResult.hasErrorKey : WrappedResult → Bool
  | .result _ => false
  | .errorDict _ _ _ => true

/-- `parse_resume_json` from `json_agents.py`: delegates to `parse_resume`
and converts a raised exception into an error dict. -/
def parse_resume_json (now modelName : String) (model : Model)
    (resume_text : PyVal) : WrappedResult :=
  match parse_resume now modelName model resume_text with
  | .ok r => .result r
  | .error e => .errorDict "Resume parsing failed" e.typeName e.msg

/-- `analyze_job_posting_json` from `json_agents.py`. -/
def analyze_job_posting_json (now modelName : String) (model : Model)
    (job_posting_text : PyVal) : WrappedResult :=
  match analyze_job_posting now modelName model job_posting_text with
  | .ok r => .result r
  | .error e => .errorDict "Job posting analysis failed" e.typeName e.msg

/-- Return dict of `process_document_json`. -/
inductive ProcessResult where
  | doc (document_type : String) (job_score resume_score : Option Nat)
      (data : WrappedResult) (success : Bool)
  | badType (error : String) (valid_types : List String)
  | failed (error error_type message : String)

/-- The `document_type` field of the returned dict, when present. -/
def ProcessResult.docType : ProcessResult → Option String
  | .doc t _ _ _ _ => some t
  | _ => Option.none

/-- `process_document_json` from `json_agents.py`: sanitize, then route on
`document_type`; in `"auto"` mode count keyword hits on the lowercased
sanitized text and classify as a job posting exactly when the job score
strictly exceeds the resume score (ties go to the resume branch). -/
def process_document_json (now nameR nameJ : String) (modelR modelJ : Model)
    (document_text : PyVal) (document_type : String) : ProcessResult :=
  match sanitize_input document_text with
  | .error e => .failed "Document processing failed" e.typeName e.msg
  | .ok sanitized_text =>
    if document_type = "resume" then
      let r := parse_resume_json now nameR modelR (.str sanitized_text)
      .doc "resume" Option.none Option.none r (!r.hasErrorKey)
    else if document_type = "job_posting" then
      let r := analyze_job_posting_json now nameJ modelJ (.str sanitized_text)
      .doc "job_posting" Option.none Option.none r (!r.hasErrorKey)
    else if document_type = "auto" then
      let text_lower := lowerChars sanitized_text.data
      let job_score := countKeywords jobKeywords text_lower
      let resume_score := countKeywords resumeKeywords text_lower
      if job_score > resume_score then
        let r := analyze_job_posting_json now nameJ modelJ (.str sanitized_text)
        .doc "job_posting" (some job_score) (some resume_score) r
          (!r.hasErrorKey)
      else
        let r := parse_resume_json now nameR modelR (.str sanitized_text)
        .doc "resume" (some job_score) (some resume_score) r (!r.hasErrorKey)
    else
      .badType ("Invalid document_type: " ++ document_type)
        ["resume", "job_posting", "auto"]

/-! ### Firestore session service (`firestore_session_service.py`) -/

/-- A stored ADK `Session` document. Events are modelled by their
`timestamp` attribute, the only part the service inspects. -/
structure SessionDoc where
  app_name : String
  user_id : String
  id : String
  state : List (String × Json)
  events : List Nat
  last_update_time : Nat

/-- The Firestore collection: document id → session document. -/
abbrev Store := List (String × SessionDoc)

/-- `collection.document(docId).set(doc)`: unconditional overwrite. -/
def storeSet (store : Store) (docId : String) (doc : SessionDoc) : Store :=
  (docId, doc) :: store.filter (fun kv => kv.1 != docId)

/-- `collection.document(docId).get()` existence lookup. -/
def storeGet (store : Store) (docId : String) : Option SessionDoc :=
  (store.find? (fun kv => kv.1 == docId)).map (fun kv => kv.2)

/-- The `Session(...)` document constructed by `create_session`. -/
def newSessionDoc (app_name user_id sid : String)
    (state : Option (List (String × Json))) (nowT : Nat) : SessionDoc :=
  { app_name := app_name, user_id := user_id, id := sid
    state := state.getD [], events := [], last_update_time := nowT }

/-- `FirestoreSessionService.create_session`: uses the stripped
caller-supplied id when truthy, otherwise the fresh uuid, then writes the
new document with `set` (an unconditional overwrite).  `freshId` stands for
`str(uuid.uuid4())` and `nowT` for `time.time()`. -/
def create_session (freshId : String) (nowT : Nat) (store : Store)
    (app_name user_id : String) (state : Option (List (String × Json)))
    (session_id : Option String) : Except PyExc (SessionDoc × Store) :=
  let final_session_id :=
    match session_id with
    | some sid =>
      if !sid.data.isEmpty && !(pyStrip sid.data).isEmpty then
        String.mk (pyStrip sid.data)
      else freshId
    | Option.none => freshId
  let session := newSessionDoc app_name user_id final_session_id state nowT
  .ok (session, storeSet store final_session_id session)

/-- `GetSessionConfig` (num_recent_events / after_timestamp). -/
structure GetSessionConfig where
  num_recent_events : Option Nat := Option.none
  after_timestamp : Option Nat := Option.none

/-- Outcome of the Firestore document read plus validation inside
`get_session`'s `try` block. -/
inductive ReadOutcome where
  | raises (e : PyExc)
  | missing
  | emptyData
  | invalidData (e : PyExc)
  | found (s : SessionDoc)

/-- The config-based event filtering inside `get_session` (truthiness:
`if config.num_recent_events` / `if config.after_timestamp` skip zero). -/
def applyConfig (config : Option GetSessionConfig) (s : SessionDoc) :
    SessionDoc :=
  match config with
  | Option.none => s
  | some cfg =>
    let s1 :=
      match cfg.num_recent_events with
      | some n =>
        if n ≠ 0 then
          { s with events := s.events.drop (s.events.length - n) }
        else s
      | Option.none => s
    match cfg.after_timestamp with
    | some t =>
      if t ≠ 0 then { s1 with events := s1.events.filter (fun ts => t ≤ ts) }
      else s1
    | Option.none => s1

/-- Body of the `try` block of `FirestoreSessionService.get_session`. -/
def get_session_try (read : ReadOutcome) (config : Option GetSessionConfig) :
    Except PyExc (Option SessionDoc) :=
  match read with
  | .raises e => .error e
  | .missing => .ok Option.none
  | .emptyData => .ok Option.none
  | .invalidData e => .error e
  | .found s => .ok (some (applyConfig config s))

/-- `FirestoreSessionService.get_session`: the `except Exception` clause
logs and falls through to the trailing `return None`. -/
def get_session (read : ReadOutcome) (config : Option GetSessionConfig) :
    Option SessionDoc :=
  match get_session_try read config with
  | .ok r => r
  | .error _ => Option.none

/-- Model oracle that always succeeds with an empty object. -/
def mOkEmpty : Model := fun _ => Except.ok (Json.obj [])

/-- Model oracle that always raises a transport-style exception. -/
def mRaise : Model := fun _ => Except.error (.otherError "transport down")

/-- Status projection used to tell two extractor outcomes apart. -/
def exStatus : Except PyExc ExtractionResult → String
  | .ok r => r.operation_status
  | .error _ => ""

/-! ### JSON serialization (`json.dumps` with default separators) -/

/-- Opening curly brace. -/
def lbrace : Char := Char.ofNat 123

/-- Closing curly brace. -/
def rbrace : Char := Char.ofNat 125

/-- Opening square bracket. -/
def lbrack : Char := '['

/-- Closing square bracket. -/
def rbrack : Char := ']'

/-- Decimal digit character. -/
def digitChar (n : Nat) : Char := Char.ofNat (48 + n)

/-- Lowercase hexadecimal digit character. -/
def hexDigitChar (n : Nat) : Char :=
  if n < 10 then Char.ofNat (48 + n) else Char.ofNat (87 + n)

/-- Decimal digits of a natural number (`str(n)`). -/
def natChars (n : Nat) : List Char :=
  if _h : n < 10 then [digitChar n]
  else natChars (n / 10) ++ [digitChar (n % 10)]
termination_by n
decreasing_by exact Nat.div_lt_self (by omega) (by omega)

/-- `str(n)` for integers. -/
def intChars (n : Int) : List Char :=
  if n < 0 then '-' :: natChars n.natAbs else natChars n.natAbs

/-- JSON string escaping of one character, as `json.dumps` emits it
(standard two-character escapes, `\u00XX` for other control characters;
non-ASCII characters are kept literal, which parses identically to the
`ensure_ascii` form). -/
def escapeChar (c : Char) : List Char :=
  if c = '"' then ['\\', '"']
  else if c = '\\' then ['\\', '\\']
  else if c = '\n' then ['\\', 'n']
  else if c = '\t' then ['\\', 't']
  else if c = '\r' then ['\\', 'r']
  else if c = Char.ofNat 8 then ['\\', 'b']
  else if c = Char.ofNat 12 then ['\\', 'f']
  else if c.toNat < 32 then
    ['\\', 'u', '0', '0', hexDigitChar (c.toNat / 16),
     hexDigitChar (c.toNat % 16)]
  else [c]

/-- Serialized JSON string literal, double-quoted. -/
def strChars (s : String) : List Char :=
  '"' :: (s.data.map escapeChar).flatten ++ ['"']

/-- The literal `null`. -/
def nullChars : List Char := ['n', 'u', 'l', 'l']

/-- The literal `true`. -/
def trueChars : List Char := ['t', 'r', 'u', 'e']

/-- The literal `false`. -/
def falseChars : List Char := ['f', 'a', 'l', 's', 'e']

mutual

/-- `json.dumps` of a value (default separators `", "` and `": "`). -/
def dumpV : Json → List Char
  | .null => nullChars
  | .bool true => trueChars
  | .bool false => falseChars
  | .num n => intChars n
  | .str s => strChars s
  | .arr xs => lbrack :: dumpElems xs ++ [rbrack]
  | .obj kvs => lbrace :: dumpFields kvs ++ [rbrace]

/-- Comma-separated array elements. -/
def dumpElems : List Json → List Char
  | [] => []
  | [x] => dumpV x
  | x :: y :: rest => dumpV x ++ ',' :: ' ' :: dumpElems (y :: rest)

/-- Comma-separated `"key": value` members. -/
def dumpFields : List (String × Json) → List Char
  | [] => []
  | [(k, v)] => strChars k ++ ':' :: ' ' :: dumpV v
  | (k, v) :: f :: rest =>
    strChars k ++ ':' :: ' ' :: dumpV v ++ ',' :: ' ' :: dumpFields (f :: rest)

end

/-- `json.dumps(payload)` as a string. -/
def dumps (v : Json) : String := String.mk (dumpV v)

/-! ### The lenient recovery grammar (`dirtyjson.loads`)

A recursive-descent parser over the character list, with a fuel argument
(`input length + 1` at the top, which the adequacy lemma below shows is
enough for every serialized value).  Beyond strict JSON it tolerates the
deviations `parse_dirty_json` relies on: single-quoted strings, unquoted
object keys and trailing commas.  Numbers are integers in this embedding;
a fractional or exponent tail is rejected. -/

/-- Skip whitespace. -/
def skipWs (cs : List Char) : List Char :=
  cs.dropWhile (fun c => c.isWhitespace)

/-- Decode a single-character string escape. -/
def unescapeChar (c : Char) : Option Char :=
  if c = '"' then some '"'
  else if c = '\\' then some '\\'
  else if c = '/' then some '/'
  else if c = '\'' then some '\''
  else if c = 'n' then some '\n'
  else if c = 't' then some '\t'
  else if c = 'r' then some '\r'
  else if c = 'b' then some (Char.ofNat 8)
  else if c = 'f' then some (Char.ofNat 12)
  else Option.none

/-- Value of a hexadecimal digit character. -/
def hexVal (c : Char) : Option Nat :=
  if '0' ≤ c ∧ c ≤ '9' then some (c.toNat - 48)
  else if 'a' ≤ c ∧ c ≤ 'f' then some (c.toNat - 87)
  else if 'A' ≤ c ∧ c ≤ 'F' then some (c.toNat - 55)
  else Option.none

/-- Parse the body of a string literal up to the closing quote `q`. -/
def parseStrChars (q : Char) : List Char → Option (List Char × List Char)
  | [] => Option.none
  | c :: rest =>
    if c = q then some ([], rest)
    else if c = '\\' then
      match rest with
      | [] => Option.none
      | e :: rest2 =>
        if e = 'u' then
          match rest2 with
          | h1 :: h2 :: h3 :: h4 :: rest3 =>
            match hexVal h1, hexVal h2, hexVal h3, hexVal h4 with
            | some a, some b, some c3, some d =>
              (parseStrChars q rest3).map
                (fun p =>
                  (Char.ofNat (((a * 16 + b) * 16 + c3) * 16 + d) :: p.1, p.2))
            | _, _, _, _ => Option.none
          | _ => Option.none
        else
          match unescapeChar e with
          | some c2 => (parseStrChars q rest2).map (fun p => (c2 :: p.1, p.2))
          | Option.none => Option.none
    else (parseStrChars q rest).map (fun p => (c :: p.1, p.2))

/-- ASCII decimal digit test. -/
def isDigitChar (c : Char) : Bool := c.isDigit

/-- Accumulating decimal value of a digit list. -/
def digitsVal (acc : Nat) : List Char → Nat
  | [] => acc
  | c :: rest => digitsVal (acc * 10 + (c.toNat - 48)) rest

/-- Whether the remainder begins a fractional or exponent part, which the
integer-valued embedding does not model. -/
def numericTail : List Char → Bool
  | c :: _ => c = '.' || c = 'e' || c = 'E'
  | [] => false

/-- Parse an unsigned decimal number. -/
def parseNatNum (cs : List Char) (mk : Nat → Json) :
    Option (Json × List Char) :=
  let ds := cs.takeWhile isDigitChar
  if ds.isEmpty then Option.none
  else if numericTail (cs.dropWhile isDigitChar) then Option.none
  else some (mk (digitsVal 0 ds), cs.dropWhile isDigitChar)

/-- Parse a possibly-negative decimal number. -/
def parseNum (cs : List Char) : Option (Json × List Char) :=
  match cs with
  | [] => Option.none
  | c :: rest =>
    if c = '-' then parseNatNum rest (fun m => Json.num (-(m : Int)))
    else parseNatNum cs (fun m => Json.num (m : Int))

/-- Consume an exact literal. -/
def stripLit (lit : List Char) (cs : List Char) : Option (List Char) :=
  if lit.isPrefixOf cs then some (cs.drop lit.length) else Option.none

/-- Parse an unquoted (bare) object key, a dirtyjson extension. -/
def parseBareKey (cs : List Char) : Option (List Char × List Char) :=
  let w := cs.takeWhile isWordChar
  if w.isEmpty then Option.none else some (w, cs.dropWhile isWordChar)

/-- Parse an object key: quoted (double or single) or bare. -/
def parseKey (cs : List Char) : Option (String × List Char) :=
  match cs with
  | [] => Option.none
  | c :: rest =>
    if c = '"' ∨ c = '\'' then
      (parseStrChars c rest).map (fun p => (String.mk p.1, p.2))
    else (parseBareKey (c :: rest)).map (fun p => (String.mk p.1, p.2))

mutual

/-- Parse one JSON value. -/
def parseValue : Nat → List Char → Option (Json × List Char)
  | 0, _ => Option.none
  | fuel + 1, cs =>
    match skipWs cs with
    | [] => Option.none
    | c :: rest =>
      if c = lbrace then
        match skipWs rest with
        | [] => Option.none
        | c2 :: rest2 =>
          if c2 = rbrace then some (.obj [], rest2)
          else
            (parseFields fuel (c2 :: rest2)).map
              (fun p => (Json.obj p.1, p.2))
      else if c = lbrack then
        match skipWs rest with
        | [] => Option.none
        | c2 :: rest2 =>
          if c2 = rbrack then some (.arr [], rest2)
          else
            (parseElems fuel (c2 :: rest2)).map (fun p => (Json.arr p.1, p.2))
      else if c = '"' ∨ c = '\'' then
        (parseStrChars c rest).map (fun p => (Json.str (String.mk p.1), p.2))
      else if c = 't' then
        (stripLit trueChars (c :: rest)).map (fun r => (Json.bool true, r))
      else if c = 'f' then
        (stripLit falseChars (c :: rest)).map (fun r => (Json.bool false, r))
      else if c = 'n' then
        (stripLit nullChars (c :: rest)).map (fun r => (Json.null, r))
      else parseNum (c :: rest)

/-- Parse the non-empty element list of an array, consuming the closing
bracket; a trailing comma before the bracket is tolerated. -/
def parseElems : Nat → List Char → Option (List Json × List Char)
  | 0, _ => Option.none
  | fuel + 1, cs =>
    match parseValue fuel cs with
    | Option.none => Option.none
    | some (v, r) =>
      match skipWs r with
      | [] => Option.none
      | c :: r2 =>
        if c = ',' then
          match skipWs r2 with
          | [] => Option.none
          | c2 :: r3 =>
            if c2 = rbrack then some ([v], r3)
            else (parseElems fuel (c2 :: r3)).map (fun p => (v :: p.1, p.2))
        else if c = rbrack then some ([v], r2)
        else Option.none

/-- Parse the non-empty member list of an object, consuming the closing
brace; a trailing comma before the brace is tolerated. -/
def parseFields : Nat → List Char → Option (List (String × Json) × List Char)
  | 0, _ => Option.none
  | fuel + 1, cs =>
    match parseKey cs with
    | Option.none => Option.none
    | some (k, r) =>
      match skipWs r with
      | [] => Option.none
      | c :: r2 =>
        if c = ':' then
          match parseValue fuel r2 with
          | Option.none => Option.none
          | some (v, r3) =>
            match skipWs r3 with
            | [] => Option.none
            | c2 :: r4 =>
              if c2 = ',' then
                match skipWs r4 with
                | [] => Option.none
                | c3 :: r5 =>
                  if c3 = rbrace then some ([(k, v)], r5)
                  else
                    (parseFields fuel (c3 :: r5)).map
                      (fun p => ((k, v) :: p.1, p.2))
              else if c2 = rbrace then some ([(k, v)], r4)
              else Option.none
        else Option.none

end

/-- `dirtyjson.loads`: parse one complete document; trailing non-whitespace
is an error.  Raised parse failures are modelled as `Except.error`. -/
def dirtyLoads (cs : List Char) : Except PyExc Json :=
  match parseValue (cs.length + 1) cs with
  | some (v, rest) =>
    if (skipWs rest).isEmpty then .ok v
    else .error (.otherError "Extra data")
  | Option.none => .error (.otherError "Unable to parse value")

/-! ### `parse_dirty_json` (`tools/pubsub.py` lines 60-140) -/

/-- Python `text.index(t)`: offset of the first occurrence, or a raised
`ValueError`. -/
def pyIndexOf (t : Char) : List Char → Except PyExc Nat
  | [] => .error (.valueError "substring not found")
  | c :: cs =>
    if c = t then .ok 0 else (pyIndexOf t cs).map (· + 1)

/-- Python `min` on two integers. -/
def pyMinI (a b : Int) : Int := if a ≤ b then a else b

/-- Python `max` on two integers. -/
def pyMaxI (a b : Int) : Int := if a ≤ b then b else a

/-- Python `text.rindex(t)`: offset of the last occurrence, or a raised
`ValueError`. -/
def pyRIndexOf (t : Char) (cs : List Char) : Except PyExc Nat :=
  match pyIndexOf t cs.reverse with
  | .ok i => .ok (cs.length - 1 - i)
  | .error e => .error e

/-- The final `try: dirtyjson.loads(...) except: return None` step;
`json.loads(json.dumps(parsed))` is the identity on the modelled trees. -/
def loadsOpt (cs : List Char) : Option Json :=
  match dirtyLoads cs with
  | .ok parsed => some parsed
  | .error _ => Option.none

/-- The slicing logic of `parse_dirty_json` (lines 92-140), abstracted over
the four `-1`-sentinel index values (`first_brace`, `first_bracket`,
`last_brace`, `last_bracket`). -/
def implAux (cs : List Char) (fb fk lb lk : Int) : Option Json :=
  if fb = -1 ∧ fk = -1 then Option.none
  else
    let start_index : Int :=
      if fb ≠ -1 ∧ fk ≠ -1 then pyMinI fb fk
      else if fb ≠ -1 then fb
      else fk
    let end_index : Int := pyMaxI lb lk
    if end_index = -1 ∨ end_index < start_index then Option.none
    else
      loadsOpt ((cs.drop start_index.toNat).take
        (end_index.toNat - start_index.toNat + 1))

/-- `parse_dirty_json` from `tools/pubsub.py`: non-string input yields
`None`; each `index`/`rindex` call is wrapped in its own
`try/except ValueError` producing the `-1` sentinel; the final
`dirtyjson.loads` call is wrapped in `try/except` returning `None` on any
parse failure.  (The `rindex` sentinels are pure, so computing them before
the early `return None` is observably identical to the source order.) -/
def parse_dirty_json (text_blob : PyVal) : Option Json :=
  match text_blob with
  | .str s =>
    let cs := s.data
    let first_brace : Int :=
      match pyIndexOf lbrace cs with | .ok i => (i : Int) | .error _ => -1
    let first_bracket : Int :=
      match pyIndexOf lbrack cs with | .ok i => (i : Int) | .error _ => -1
    let last_brace : Int :=
      match pyRIndexOf rbrace cs with | .ok i => (i : Int) | .error _ => -1
    let last_bracket : Int :=
      match pyRIndexOf rbrack cs with | .ok i => (i : Int) | .error _ => -1
    implAux cs first_brace first_bracket last_brace last_bracket
  | _ => Option.none

/-- First index satisfying a predicate. -/
def firstIdxP (p : Char → Bool) : List Char → Option Nat
  | [] => Option.none
  | c :: cs => if p c then some 0 else (firstIdxP p cs).map (· + 1)

/-- Character equality test. -/
def chEq (t : Char) : Char → Bool := fun c => decide (c = t)

/-- Opening brace or bracket. -/
def isOpenChar (c : Char) : Bool := chEq lbrace c || chEq lbrack c

/-- Closing brace or bracket. -/
def isCloseChar (c : Char) : Bool := chEq rbrace c || chEq rbrack c

/-- Index of the first opening brace/bracket. -/
def firstOpenIdx (cs : List Char) : Option Nat := firstIdxP isOpenChar cs

/-- Index of the last closing brace/bracket. -/
def lastCloseIdx (cs : List Char) : Option Nat :=
  (firstIdxP isCloseChar cs.reverse).map (fun i => cs.length - 1 - i)

/-- The spec's slicing step: with the first opening index and the last
closing index in hand, slice inclusively and parse leniently. -/
def specAux (cs : List Char) (oi oj : Option Nat) : Option Json :=
  match oi, oj with
  | some i, some j =>
    if i ≤ j then loadsOpt ((cs.drop i).take (j - i + 1))
    else Option.none
  | some _, Option.none => Option.none
  | Option.none, _ => Option.none

/-- Modelled from the spec (section 4.6, `recover_structured_payload`):
locate the first opening brace/bracket and the last closing brace/bracket,
slice that substring, parse it with the lenient grammar; `None` when no
such bracketed region exists or the lenient parse fails; `None` for
non-string input. -/
def recover_structured_payload (v : PyVal) : Option Json :=
  match v with
  | .str s => specAux s.data (firstOpenIdx s.data) (lastCloseIdx s.data)
  | _ => Option.none

/-- Sentinel encoding of an optional index (`-1` when absent). -/
def sentinel : Option Nat → Int
  | some i => (i : Int)
  | Option.none => -1

/-- Merge of two optional first-occurrence indices: the earlier one. -/
def mergeIdx : Option Nat → Option Nat → Option Nat
  | some i, some j => some (if i ≤ j then i else j)
  | some i, Option.none => some i
  | Option.none, some j => some j
  | Option.none, Option.none => Option.none

/-- Merge of two optional last-occurrence indices: the later one. -/
def mergeIdxMax : Option Nat → Option Nat → Option Nat
  | some i, some j => some (if i ≤ j then j else i)
  | some i, Option.none => some i
  | Option.none, some j => some j
  | Option.none, Option.none => Option.none

/-- The ten decimal digit characters. -/
def digitList : List Char :=
  ['0', '1', '2', '3', '4', '5', '6', '7', '8', '9']

/-- Whether a remainder could extend a just-parsed number (a digit,
fraction or exponent continuation).  Serialized values are only followed by
separators or closers, for which this is false. -/
def numericExt : List Char → Bool
  | c :: _ => isDigitChar c || c = '.' || c = 'e' || c = 'E'
  | [] => false

/-- Whether a character list starts with a character that is not
whitespace, not a closing bracket and not a closing brace — true of every
serialized value and every serialized object key. -/
def headOK : List Char → Bool
  | [] => false
  | c :: _ => !c.isWhitespace && !(c == rbrack) && !(c == rbrace)

mutual

/-- Fuel sufficient for `parseValue` on the serialization of a value. -/
def fuelV : Json → Nat
  | .null => 1
  | .bool _ => 1
  | .num _ => 1
  | .str _ => 1
  | .arr xs => 1 + fuelE xs
  | .obj kvs => 1 + fuelF kvs

/-- Fuel sufficient for `parseElems` on serialized elements. -/
def fuelE : List Json → Nat
  | [] => 0
  | x :: rest => 1 + fuelV x + fuelE rest

/-- Fuel sufficient for `parseFields` on serialized members. -/
def fuelF : List (String × Json) → Nat
  | [] => 0
  | (_, v) :: rest => 1 + fuelV v + fuelF rest

end

/-- Whether the field list has a string-valued entry under `name`. -/
def hasStrField (name : String) : List (String × Json) → Bool
  | [] => false
  | (k, v) :: rest =>
    (k == name && (match v with | .str _ => true | _ => false)) ||
      hasStrField name rest

/-- Conformance to the registered event payload shapes (`events.py`): a
JSON object carrying the `EventPayload` string fields `user_id` and
`session_id` (plus the event-specific structured data). -/
def conformsToEventPayloadB : Json → Bool
  | .obj kvs => hasStrField "user_id" kvs && hasStrField "session_id" kvs
  | _ => false

/-! ### Event emission (`tools/pubsub.py` `emit_event`, `utils/retry.py`) -/

/-- Transport model for Pub/Sub: the outcome of the i-th publish attempt of
a message with the given `event` attribute and serialized data. -/
structure PublishModel where
  outcome : Nat → String → String → Except PyExc String

/-- `emit_event` from `tools/pubsub.py` (the copy in `event_publisher.py`
is identical in structure): serialize the payload, publish once, await the
ack; there is no retry wrapper, so a transport exception from the single
publish attempt propagates to the caller. -/
def emit_event (pub : PublishModel) (name : String) (payload : Json) :
    Except PyExc String :=
  let data := dumps payload
  pub.outcome 0 name data

/-- Attempt loop of `exponential_backoff` in `utils/retry.py`
(`for attempt in range(max_retries + 1)`): re-invoke after a failure,
re-raise the final exception when attempts are exhausted.  Backoff delays
and jitter only affect timing and are not modelled. -/
def retryCallAux (outcome : Nat → Except PyExc String) :
    Nat → Nat → Except PyExc String
  | attempt, 0 => outcome attempt
  | attempt, rem + 1 =>
    match outcome attempt with
    | .ok r => .ok r
    | .error _ => retryCallAux outcome (attempt + 1) rem

/-- `exponential_backoff(max_retries := k)` applied to a call. -/
def retryCall (maxRetries : Nat) (outcome : Nat → Except PyExc String) :
    Except PyExc String :=
  retryCallAux outcome 0 maxRetries

/-! ### Concrete instances used as witnesses -/

/-- Model oracle that raises a pydantic `ValidationError`. -/
def mValErr : Model := fun _ => Except.error (.validationError "bad field")

/-- A 50,001-character input, above the sanitizer's size ceiling. -/
def bigText : String := String.mk (List.replicate 50001 'a')

/-- A stored session document under id `"s1"`. -/
def oldDoc : SessionDoc :=
  { app_name := "app", user_id := "u", id := "s1"
    state := [("k", Json.str "old")], events := [], last_update_time := 1 }

/-- A store already holding session `"s1"`. -/
def store0 : Store := [("s1", oldDoc)]

/-- Transport that fails the first publish attempt and succeeds afterward. -/
def pubFlaky : PublishModel :=
  { outcome := fun attempt _ _ =>
      if attempt = 0 then Except.error (.otherError "bus unavailable")
      else Except.ok "msg-2" }

/-- A payload of the registered `EventPayload` shape, used as the
round-trip witness. -/
def payloadW : Json :=
  Json.obj [("user_id", Json.str "u1"), ("session_id", Json.str "s1")]

/-- Commentary prefix opening a fenced code block. -/
def wrapPre : List Char := "Here is the result:\n```json\n".data

/-- Commentary suffix closing the fenced code block. -/
def wrapSuf : List Char := "\n```".data

/-!
## Theorems

One theorem per claim (plus counterexamples, amended statements and
witnesses), preceded by shared helper lemmas.
-/

/-- Helper: the sanitizer succeeds only on string input. -/
theorem sanitize_ok_str {input : PyVal} {s : String}
    (h : sanitize_input input = .ok s) : ∃ t, input = PyVal.str t := by
  cases input
  case str t => exact ⟨t, rfl⟩
  all_goals exact absurd h (by simp [sanitize_input])

/-- Helper: `sanitize_input` on a string input, reduced. -/
theorem sanitize_input_str (s : String) :
    sanitize_input (.str s) =
      (if s.data.isEmpty then
        .error (.valueError "Invalid input: must be a non-empty string")
      else if 50000 < s.data.length then
        .error (.valueError "Input text too large")
      else .ok (String.mk (scrubChars s.data))) := rfl

/-- Helper: `parse_resume` on a string input, reduced past the logging
slice. -/
theorem parse_resume_str (now name : String) (model : Model) (s : String) :
    parse_resume now name model (.str s) =
      match parse_resume_try model (.str s) with
      | .ok j => .ok (resumeSuccess now name j)
      | .error e => .ok (resumeFailure now e) := rfl

/-- Helper: `analyze_job_posting` on a string input, reduced past the
logging slice. -/
theorem analyze_str (now name : String) (model : Model) (s : String) :
    analyze_job_posting now name model (.str s) =
      match model (.str s) with
      | .ok j => .ok (jobSuccess now name j)
      | .error (.validationError m) => .ok (jobValidationFailure now m)
      | .error e => .ok (jobFailure now e) := rfl

/-- Helper: reading back the document id just written by `set`. -/
theorem storeGet_set (store : Store) (docId : String) (d : SessionDoc) :
    storeGet (storeSet store docId d) docId = some d := by
  simp [storeGet, storeSet]

/-- C1: the result dict returned by an extractor (`parse_resume` or
`analyze_job_posting`) has non-null domain data if and only if
`operation_status = "success"`, and its session info carries an error entry
if and only if the status is not `"success"`. -/
theorem C1_domain_data_iff_success :
    (∀ (now name : String) (model : Model) (input : PyVal)
        (r : ExtractionResult),
        parse_resume now name model input = .ok r →
        ((r.domain_data ≠ Option.none ↔ r.operation_status = "success") ∧
         (r.session_info.error ≠ Option.none ↔
           r.operation_status ≠ "success"))) ∧
    (∀ (now name : String) (model : Model) (input : PyVal)
        (r : ExtractionResult),
        analyze_job_posting now name model input = .ok r →
        ((r.domain_data ≠ Option.none ↔ r.operation_status = "success") ∧
         (r.session_info.error ≠ Option.none ↔
           r.operation_status ≠ "success"))) := by
  constructor
  · intro now name model input r h
    unfold parse_resume at h
    split at h
    · exact absurd h (by simp)
    · split at h
      · injection h with h
        subst h
        simp [resumeSuccess]
      · injection h with h
        subst h
        simp [resumeFailure]
  · intro now name model input r h
    unfold analyze_job_posting at h
    split at h
    · exact absurd h (by simp)
    · split at h <;>
        · injection h with h
          subst h
          simp [jobSuccess, jobValidationFailure, jobFailure]

/-- Witness for C1: both extractors evaluated at concrete inputs. -/
theorem C1_domain_data_iff_success_witness :
    (((resumeSuccess "t0" "m0" (Json.obj [])).domain_data ≠ Option.none ↔
        (resumeSuccess "t0" "m0" (Json.obj [])).operation_status =
          "success") ∧
     ((resumeSuccess "t0" "m0" (Json.obj [])).session_info.error ≠
          Option.none ↔
        (resumeSuccess "t0" "m0" (Json.obj [])).operation_status ≠
          "success")) ∧
    (((jobFailure "t0" (.otherError "transport down")).domain_data ≠
          Option.none ↔
        (jobFailure "t0" (.otherError "transport down")).operation_status =
          "success") ∧
     ((jobFailure "t0" (.otherError "transport down")).session_info.error ≠
          Option.none ↔
        (jobFailure "t0" (.otherError "transport down")).operation_status ≠
          "success")) :=
  ⟨C1_domain_data_iff_success.1 "t0" "m0" mOkEmpty (.str "resume text")
      (resumeSuccess "t0" "m0" (Json.obj [])) rfl,
   C1_domain_data_iff_success.2 "t0" "m0" mRaise (.str "posting")
      (jobFailure "t0" (.otherError "transport down")) rfl⟩

/-- C2: exceptions raised by the model call / schema validation inside the
`try` block are not propagated: `parse_resume` returns the error dict with
status `"error"`, `analyze_job_posting` the validation-error dict for a
`ValidationError` and the error dict otherwise, each with session info
describing the failure. -/
theorem C2_model_errors_absorbed :
    (∀ (now name : String) (model : Model) (input : PyVal) (s : String)
        (e : PyExc),
        sanitize_input input = .ok s → model (.str s) = .error e →
        parse_resume now name model input = .ok (resumeFailure now e)) ∧
    (∀ (now name : String) (model : Model) (s : String) (e : PyExc),
        model (.str s) = .error e →
        analyze_job_posting now name model (.str s) =
          .ok (if e.isValidationError then jobValidationFailure now e.msg
               else jobFailure now e)) := by
  constructor
  · intro now name model input s e hs hm
    obtain ⟨t, rfl⟩ := sanitize_ok_str hs
    have h2 : parse_resume_try model (.str t) = .error e := by
      unfold parse_resume_try
      rw [hs]
      exact hm
    rw [parse_resume_str, h2]
  · intro now name model s e hm
    rw [analyze_str, hm]
    cases e <;> rfl

/-- Witness for C2: a transport failure inside `parse_resume` and a
validation failure inside `analyze_job_posting`. -/
theorem C2_model_errors_absorbed_witness :
    parse_resume "t0" "m0" mRaise (.str "resume text") =
      .ok (resumeFailure "t0" (.otherError "transport down")) ∧
    analyze_job_posting "t0" "m0" mValErr (.str "posting") =
      .ok (jobValidationFailure "t0" "bad field") :=
  ⟨C2_model_errors_absorbed.1 "t0" "m0" mRaise (.str "resume text")
      "resume text" (.otherError "transport down") rfl rfl,
   C2_model_errors_absorbed.2 "t0" "m0" mValErr "posting"
      (.validationError "bad field") rfl⟩

/-- C3 counterexample: `analyze_job_posting` never sanitizes — on a
50,001-character input it still invokes the model (the outcome depends on
the model oracle) and can succeed, contradicting "extraction fails at the
sanitize step and no model call is made" for every extractor. -/
theorem C3_counterexample :
    50000 < bigText.length ∧
    analyze_job_posting "t0" "m0" mOkEmpty (.str bigText) =
      .ok (jobSuccess "t0" "m0" (Json.obj [])) ∧
    analyze_job_posting "t0" "m0" mOkEmpty (.str bigText) ≠
      analyze_job_posting "t0" "m0" mRaise (.str bigText) := by
  refine ⟨?_, rfl, ?_⟩
  · have h1 : bigText.length = (List.replicate 50001 'a').length := rfl
    rw [h1, List.length_replicate]
    omega
  · intro h
    exact absurd (congrArg exStatus h) (by decide)

/-- C3 amended: `parse_resume` sanitizes first — an oversized input fails
at the sanitize step with no model call (its result is independent of the
model oracle) — while `analyze_job_posting` performs no sanitization and
invokes the model on the raw input of any size. -/
theorem C3_amended :
    (∀ (now name : String) (m1 m2 : Model) (s : String),
        50000 < s.length →
        parse_resume now name m1 (.str s) =
          parse_resume now name m2 (.str s) ∧
        parse_resume now name m1 (.str s) =
          .ok (resumeFailure now (.valueError "Input text too large"))) ∧
    (∀ (now name : String) (model : Model) (s : String) (j : Json),
        model (.str s) = .ok j →
        analyze_job_posting now name model (.str s) =
          .ok (jobSuccess now name j)) := by
  constructor
  · intro now name m1 m2 s hlen
    have hlen' : 50000 < s.data.length := hlen
    have hne : s.data.isEmpty = false := by
      cases h' : s.data
      · rw [h'] at hlen'
        simp at hlen'
      · rfl
    have hsan : sanitize_input (.str s) =
        .error (.valueError "Input text too large") := by
      rw [sanitize_input_str, hne]
      simp [hlen, hlen']
    have h1 : parse_resume_try m1 (.str s) =
        .error (.valueError "Input text too large") := by
      unfold parse_resume_try
      rw [hsan]
    have h2 : parse_resume_try m2 (.str s) =
        .error (.valueError "Input text too large") := by
      unfold parse_resume_try
      rw [hsan]
    constructor
    · rw [parse_resume_str, parse_resume_str, h1, h2]
    · rw [parse_resume_str, h1]
  · intro now name model s j hm
    rw [analyze_str, hm]

/-- Witness for C3 amended: the oversized input and a successful model
call. -/
theorem C3_amended_witness :
    (parse_resume "t0" "m0" mOkEmpty (.str bigText) =
       parse_resume "t0" "m0" mRaise (.str bigText)) ∧
    (analyze_job_posting "t0" "m0" mOkEmpty (.str "posting") =
       .ok (jobSuccess "t0" "m0" (Json.obj []))) :=
  ⟨(C3_amended.1 "t0" "m0" mOkEmpty mRaise bigText (by
      have h1 : bigText.length = (List.replicate 50001 'a').length := rfl
      rw [h1, List.length_replicate]
      omega)).1,
   C3_amended.2 "t0" "m0" mOkEmpty "posting" (Json.obj []) rfl⟩

/-- C4 counterexample: with session `"s1"` already stored, `create_session`
with caller-supplied id `"s1"` does not fail with `AlreadyExists`: it
returns the new session and overwrites the stored document. -/
theorem C4_counterexample :
    storeGet store0 "s1" = some oldDoc ∧
    create_session "fresh-uuid" 2 store0 "app" "u" Option.none (some "s1") =
      .ok (newSessionDoc "app" "u" "s1" Option.none 2,
           [("s1", newSessionDoc "app" "u" "s1" Option.none 2)]) ∧
    (newSessionDoc "app" "u" "s1" Option.none 2).last_update_time ≠
      oldDoc.last_update_time :=
  ⟨rfl, rfl, by decide⟩

/-- C4 amended: `create_session` generates a fresh session id when none is
supplied; a caller-supplied id that collides with a stored session does not
fail — `set` overwrites, and the new document is what the store then holds
under that id. -/
theorem C4_amended :
    (∀ (freshId : String) (nowT : Nat) (store : Store) (app user : String)
        (state : Option (List (String × Json))),
        create_session freshId nowT store app user state Option.none =
          .ok (newSessionDoc app user freshId state nowT,
               storeSet store freshId
                 (newSessionDoc app user freshId state nowT))) ∧
    (∀ (freshId : String) (nowT : Nat) (store : Store) (app user : String)
        (state : Option (List (String × Json))) (sid : String),
        pyStrip sid.data = sid.data → sid.data ≠ [] →
        create_session freshId nowT store app user state (some sid) =
          .ok (newSessionDoc app user sid state nowT,
               storeSet store sid (newSessionDoc app user sid state nowT)) ∧
        storeGet (storeSet store sid (newSessionDoc app user sid state nowT))
            sid = some (newSessionDoc app user sid state nowT)) := by
  constructor
  · intro freshId nowT store app user state
    rfl
  · intro freshId nowT store app user state sid hstrip hne
    have hne' : sid.data.isEmpty = false := by
      cases h' : sid.data
      · exact absurd h' hne
      · rfl
    have hmk : String.mk (pyStrip sid.data) = sid := by rw [hstrip]
    have hc : (!sid.data.isEmpty && !(pyStrip sid.data).isEmpty) = true := by
      rw [hstrip, hne']
      rfl
    constructor
    · simp [create_session, hc, hmk]
    · exact storeGet_set store sid (newSessionDoc app user sid state nowT)

/-- Witness for C4 amended: collision with the stored `"s1"` session. -/
theorem C4_amended_witness :
    create_session "fresh-uuid" 2 store0 "app" "u" Option.none (some "s1") =
      .ok (newSessionDoc "app" "u" "s1" Option.none 2,
           storeSet store0 "s1" (newSessionDoc "app" "u" "s1" Option.none 2)) ∧
    storeGet (storeSet store0 "s1" (newSessionDoc "app" "u" "s1" Option.none 2))
        "s1" = some (newSessionDoc "app" "u" "s1" Option.none 2) :=
  C4_amended.2 "fresh-uuid" 2 store0 "app" "u" Option.none "s1" rfl
    (by decide)

/-- C5 counterexample: with a transport that fails the first publish
attempt and would succeed on the second, `emit_event` surfaces the first
failure immediately — no retry happens — although the claimed 3-attempt
retry policy (`retryCall` applied to the same transport) would succeed. -/
theorem C5_counterexample :
    emit_event pubFlaky "TestEvent" (Json.obj []) =
      .error (.otherError "bus unavailable") ∧
    retryCall 3 (fun attempt =>
        pubFlaky.outcome attempt "TestEvent" (dumps (Json.obj []))) =
      .ok "msg-2" :=
  ⟨rfl, rfl⟩

/-- C5 amended: `emit_event` serializes the payload and performs exactly
one publish attempt with no retry wrapper; a transport exception from that
single attempt propagates to the caller immediately (the
`exponential_backoff` retry utility exists in `utils/retry.py` but is not
applied to `emit_event`). -/
theorem C5_amended :
    ∀ (pub : PublishModel) (name : String) (payload : Json) (e : PyExc),
      pub.outcome 0 name (dumps payload) = .error e →
      emit_event pub name payload = .error e := by
  intro pub name payload e h
  exact h

/-- Witness for C5 amended: the flaky transport. -/
theorem C5_amended_witness :
    emit_event pubFlaky "TestEvent2" (Json.obj []) =
      .error (.otherError "bus unavailable") :=
  C5_amended pubFlaky "TestEvent2" (Json.obj [])
    (.otherError "bus unavailable") rfl

/-- Helper for C8: in auto mode the detected document type is
`"job_posting"` exactly when the job keyword score strictly exceeds the
resume keyword score on the lowercased sanitized text. -/
theorem process_auto_docType (now nameR nameJ : String)
    (modelR modelJ : Model) (input : PyVal) (s : String)
    (hs : sanitize_input input = .ok s) :
    (process_document_json now nameR nameJ modelR modelJ input
        "auto").docType =
      some (if countKeywords resumeKeywords (lowerChars s.data) <
               countKeywords jobKeywords (lowerChars s.data)
            then "job_posting" else "resume") := by
  unfold process_document_json
  rw [hs]
  by_cases hgt : countKeywords resumeKeywords (lowerChars s.data) <
      countKeywords jobKeywords (lowerChars s.data)
  · simp [hgt, ProcessResult.docType]
  · simp [hgt, ProcessResult.docType]

/-- C8: in auto mode `process_document_json` classifies the input as a job
posting exactly when the job keyword score strictly exceeds the resume
keyword score, classifies ties as a resume, and the detected type is a
deterministic function of the input text alone (independent of the model
oracles, timestamps and model names). -/
theorem C8_classification :
    ∀ (now nameR nameJ : String) (modelR modelJ : Model) (input : PyVal)
      (s : String),
      sanitize_input input = .ok s →
      ((process_document_json now nameR nameJ modelR modelJ input
          "auto").docType =
        some (if countKeywords resumeKeywords (lowerChars s.data) <
                 countKeywords jobKeywords (lowerChars s.data)
              then "job_posting" else "resume")) ∧
      (countKeywords resumeKeywords (lowerChars s.data) =
         countKeywords jobKeywords (lowerChars s.data) →
        (process_document_json now nameR nameJ modelR modelJ input
            "auto").docType = some "resume") ∧
      (∀ (now2 nR2 nJ2 : String) (mR2 mJ2 : Model),
        (process_document_json now nameR nameJ modelR modelJ input
            "auto").docType =
          (process_document_json now2 nR2 nJ2 mR2 mJ2 input
            "auto").docType) := by
  intro now nameR nameJ modelR modelJ input s hs
  refine ⟨process_auto_docType now nameR nameJ modelR modelJ input s hs,
    ?_, ?_⟩
  · intro heq
    rw [process_auto_docType now nameR nameJ modelR modelJ input s hs]
    simp [heq]
  · intro now2 nR2 nJ2 mR2 mJ2
    rw [process_auto_docType now nameR nameJ modelR modelJ input s hs,
        process_auto_docType now2 nR2 nJ2 mR2 mJ2 input s hs]

/-- Witness for C8: a zero-score input classifies as a resume. -/
theorem C8_classification_witness :
    ((process_document_json "t0" "r" "j" mOkEmpty mOkEmpty (.str "abc")
        "auto").docType =
      some (if countKeywords resumeKeywords (lowerChars ("abc" : String).data) <
               countKeywords jobKeywords (lowerChars ("abc" : String).data)
            then "job_posting" else "resume")) ∧
    (countKeywords resumeKeywords (lowerChars ("abc" : String).data) =
       countKeywords jobKeywords (lowerChars ("abc" : String).data) →
      (process_document_json "t0" "r" "j" mOkEmpty mOkEmpty (.str "abc")
          "auto").docType = some "resume") ∧
    (∀ (now2 nR2 nJ2 : String) (mR2 mJ2 : Model),
      (process_document_json "t0" "r" "j" mOkEmpty mOkEmpty (.str "abc")
          "auto").docType =
        (process_document_json now2 nR2 nJ2 mR2 mJ2 (.str "abc")
          "auto").docType) :=
  C8_classification "t0" "r" "j" mOkEmpty mOkEmpty (.str "abc") "abc" rfl

/-- C9: `get_session` returns `None` both when no document exists for the
id and when the store read (or the validation of what it returned) raises;
a read failure is never propagated to the caller. -/
theorem C9_get_session_none :
    ∀ (config : Option GetSessionConfig),
      (∀ e, get_session (.raises e) config = Option.none) ∧
      get_session .missing config = Option.none ∧
      (∀ e, get_session (.invalidData e) config = Option.none) ∧
      get_session .emptyData config = Option.none :=
  fun _ => ⟨fun _ => rfl, rfl, fun _ => rfl, rfl⟩

/-- C10 counterexample: `parse_resume` on the non-string input `None`
raises `TypeError` from the pre-`try` logging slice `resume_text[:200]`
instead of returning a result dict. -/
theorem C10_counterexample :
    parse_resume "t0" "m0" mOkEmpty PyVal.pynone =
      .error (.typeError "object is not subscriptable") := rfl

/-- C10 amended: `parse_resume` is total on every string input — the `try`
block converts sanitizer and model failures into an error dict — but the
`logging.info(f"...{resume_text[:200]}...")` statement placed before the
`try` block raises `TypeError` for non-sliceable non-string inputs such as
`None` or an integer. -/
theorem C10_amended :
    (∀ (now name : String) (model : Model) (s : String),
        ∃ r, parse_resume now name model (.str s) = .ok r) ∧
    (∀ (now name : String) (model : Model) (n : Int),
        parse_resume now name model (.int n) =
          .error (.typeError "object is not subscriptable")) ∧
    (∀ (now name : String) (model : Model),
        parse_resume now name model .pynone =
          .error (.typeError "object is not subscriptable")) := by
  refine ⟨?_, fun _ _ _ _ => rfl, fun _ _ _ => rfl⟩
  intro now name model s
  cases h : parse_resume_try model (.str s) with
  | ok j => exact ⟨resumeSuccess now name j, by rw [parse_resume_str, h]⟩
  | error e => exact ⟨resumeFailure now e, by rw [parse_resume_str, h]⟩

/-- Helper: Python `index` as the first-index function. -/
theorem pyIndexOf_spec (t : Char) (cs : List Char) :
    pyIndexOf t cs =
      match firstIdxP (chEq t) cs with
      | some i => .ok i
      | Option.none => .error (.valueError "substring not found") := by
  induction cs with
  | nil => rfl
  | cons c cs ih =>
    by_cases h : c = t
    · simp [pyIndexOf, firstIdxP, chEq, h]
    · have e1 : pyIndexOf t (c :: cs) = (pyIndexOf t cs).map (· + 1) := by
        simp [pyIndexOf, h]
      have e2 : firstIdxP (chEq t) (c :: cs) =
          (firstIdxP (chEq t) cs).map (· + 1) := by
        simp [firstIdxP, chEq, h]
      rw [e1, e2, ih]
      cases firstIdxP (chEq t) cs <;> rfl

/-- Helper: Python `rindex` as the first-index function on the reverse. -/
theorem pyRIndexOf_spec (t : Char) (cs : List Char) :
    pyRIndexOf t cs =
      match firstIdxP (chEq t) cs.reverse with
      | some i => .ok (cs.length - 1 - i)
      | Option.none => .error (.valueError "substring not found") := by
  unfold pyRIndexOf
  rw [pyIndexOf_spec]
  cases firstIdxP (chEq t) cs.reverse <;> rfl

/-- Helper: first index of a disjunction of predicates. -/
theorem firstIdxP_or (p q : Char → Bool) (cs : List Char) :
    firstIdxP (fun c => p c || q c) cs =
      match firstIdxP p cs, firstIdxP q cs with
      | some i, some j => some (if i ≤ j then i else j)
      | some i, Option.none => some i
      | Option.none, some j => some j
      | Option.none, Option.none => Option.none := by
  induction cs with
  | nil => rfl
  | cons c cs ih =>
    by_cases hp : p c = true
    · by_cases hq : q c = true
      · simp [firstIdxP, hp, hq]
      · simp only [firstIdxP, hp, hq, Bool.true_or, if_true,
          Bool.false_eq_true, if_false]
        cases firstIdxP q cs <;> simp
    · by_cases hq : q c = true
      · simp only [firstIdxP, hp, hq, Bool.false_or, if_true,
          Bool.false_eq_true, if_false]
        cases hP : firstIdxP p cs <;> simp
      · have e0 : (fun c => p c || q c) c = false := by
          simp [hp, hq]
        have e1 : firstIdxP (fun c => p c || q c) (c :: cs) =
            (firstIdxP (fun c => p c || q c) cs).map (· + 1) := by
          simp [firstIdxP, e0]
        have e2 : firstIdxP p (c :: cs) = (firstIdxP p cs).map (· + 1) := by
          simp [firstIdxP, hp]
        have e3 : firstIdxP q (c :: cs) = (firstIdxP q cs).map (· + 1) := by
          simp [firstIdxP, hq]
        rw [e1, e2, e3, ih]
        cases hP : firstIdxP p cs <;> cases hQ : firstIdxP q cs
        all_goals simp only [Option.map_some', Option.map_none']
        all_goals
          first
            | rfl
            | (simp only [Option.some.injEq]; split_ifs <;> omega)

/-- Helper: a found first index is inside the list. -/
theorem firstIdxP_lt_length {p : Char → Bool} {cs : List Char} {i : Nat}
    (h : firstIdxP p cs = some i) : i < cs.length := by
  induction cs generalizing i with
  | nil => exact absurd h (by simp [firstIdxP])
  | cons c cs ih =>
    by_cases hp : p c = true
    · simp only [firstIdxP, hp, if_true, Option.some.injEq] at h
      simp only [List.length_cons]
      omega
    · have e1 : firstIdxP p (c :: cs) = (firstIdxP p cs).map (· + 1) := by
        simp [firstIdxP, hp]
      rw [e1] at h
      cases hF : firstIdxP p cs with
      | none => rw [hF] at h; exact absurd h (by simp)
      | some a =>
        rw [hF] at h
        simp only [Option.map_some', Option.some.injEq] at h
        have := ih hF
        simp only [List.length_cons]
        omega

/-- Helper: `firstOpenIdx` as the merge of the per-character indices. -/
theorem firstOpenIdx_eq (cs : List Char) :
    firstOpenIdx cs =
      mergeIdx (firstIdxP (chEq lbrace) cs) (firstIdxP (chEq lbrack) cs) := by
  have h : firstOpenIdx cs =
      firstIdxP (fun c => chEq lbrace c || chEq lbrack c) cs := rfl
  rw [h, firstIdxP_or]
  rcases firstIdxP (chEq lbrace) cs with _ | a <;>
    rcases firstIdxP (chEq lbrack) cs with _ | b <;> rfl

/-- Helper: shifting the earlier-index merge by `length - 1 - i` gives the
later-index merge of the shifted values (the indices come from the
reversed list, so they are below `length`). -/
theorem mergeIdx_map_shift (L : Nat) (o1 o2 : Option Nat)
    (h1 : ∀ i, o1 = some i → i < L) (h2 : ∀ i, o2 = some i → i < L) :
    (mergeIdx o1 o2).map (fun i => L - 1 - i) =
      mergeIdxMax (o1.map (fun i => L - 1 - i))
        (o2.map (fun i => L - 1 - i)) := by
  rcases o1 with _ | x <;> rcases o2 with _ | y <;>
    simp only [mergeIdx, mergeIdxMax, Option.map_some', Option.map_none']
  have hx := h1 x rfl
  have hy := h2 y rfl
  split_ifs <;> (first | rfl | (simp only [Option.some.injEq]; omega))

/-- Helper: `lastCloseIdx` as the later-index merge of the shifted
per-character indices. -/
theorem lastCloseIdx_eq (cs : List Char) :
    lastCloseIdx cs =
      mergeIdxMax
        ((firstIdxP (chEq rbrace) cs.reverse).map (fun i => cs.length - 1 - i))
        ((firstIdxP (chEq rbrack) cs.reverse).map
          (fun i => cs.length - 1 - i)) := by
  have h : lastCloseIdx cs =
      (firstIdxP (fun c => chEq rbrace c || chEq rbrack c) cs.reverse).map
        (fun i => cs.length - 1 - i) := rfl
  rw [h, firstIdxP_or]
  have hmerge : (match firstIdxP (chEq rbrace) cs.reverse,
        firstIdxP (chEq rbrack) cs.reverse with
      | some i, some j => some (if i ≤ j then i else j)
      | some i, Option.none => some i
      | Option.none, some j => some j
      | Option.none, Option.none => Option.none) =
      mergeIdx (firstIdxP (chEq rbrace) cs.reverse)
        (firstIdxP (chEq rbrack) cs.reverse) := by
    rcases firstIdxP (chEq rbrace) cs.reverse with _ | a <;>
      rcases firstIdxP (chEq rbrack) cs.reverse with _ | b <;> rfl
  rw [hmerge]
  apply mergeIdx_map_shift
  · intro i hi
    have := firstIdxP_lt_length hi
    simpa using this
  · intro i hi
    have := firstIdxP_lt_length hi
    simpa using this

/-- Helper: `loadsOpt` respects index equalities. -/
theorem loadsOpt_congr {cs : List Char} {i1 i2 n1 n2 : Nat}
    (hi : i1 = i2) (hn : n1 = n2) :
    loadsOpt ((cs.drop i1).take n1) = loadsOpt ((cs.drop i2).take n2) := by
  rw [hi, hn]

set_option maxHeartbeats 1000000 in
/-- Helper: the sentinel-index slicing logic of `parse_dirty_json` equals
the spec's slicing step, for arbitrary optional indices. -/
theorem implAux_eq_specAux (cs : List Char) (oB oK oE1 oE2 : Option Nat) :
    implAux cs (sentinel oB) (sentinel oK) (sentinel oE1) (sentinel oE2) =
      specAux cs (mergeIdx oB oK) (mergeIdxMax oE1 oE2) := by
  rcases oB with _ | a <;> rcases oK with _ | b <;>
    rcases oE1 with _ | x <;> rcases oE2 with _ | y <;>
    simp only [implAux, specAux, sentinel, mergeIdx, mergeIdxMax, pyMinI,
      pyMaxI, eq_self_iff_true, ne_eq, not_true, not_false_eq_true, and_true,
      true_and, and_false, false_and, or_false, false_or, if_true,
      if_false] <;>
    split_ifs <;>
    (try simp only [false_or, or_false] at *) <;>
    first
      | (exfalso; first | assumption | omega)
      | (apply loadsOpt_congr <;> omega)
      | rfl
      | (exfalso; simp_all)

/-- Helper: the implementation's recovery equals the spec's recovery on
every string input. -/
theorem parse_dirty_json_str_eq (s : String) :
    parse_dirty_json (.str s) = recover_structured_payload (.str s) := by
  have e1 : parse_dirty_json (.str s) =
      implAux s.data
        (match pyIndexOf lbrace s.data with
         | .ok i => (i : Int) | .error _ => -1)
        (match pyIndexOf lbrack s.data with
         | .ok i => (i : Int) | .error _ => -1)
        (match pyRIndexOf rbrace s.data with
         | .ok i => (i : Int) | .error _ => -1)
        (match pyRIndexOf rbrack s.data with
         | .ok i => (i : Int) | .error _ => -1) := rfl
  have sB : (match pyIndexOf lbrace s.data with
      | .ok i => (i : Int) | .error _ => -1) =
      sentinel (firstIdxP (chEq lbrace) s.data) := by
    rw [pyIndexOf_spec]
    rcases firstIdxP (chEq lbrace) s.data with _ | a <;> rfl
  have sK : (match pyIndexOf lbrack s.data with
      | .ok i => (i : Int) | .error _ => -1) =
      sentinel (firstIdxP (chEq lbrack) s.data) := by
    rw [pyIndexOf_spec]
    rcases firstIdxP (chEq lbrack) s.data with _ | a <;> rfl
  have sRB : (match pyRIndexOf rbrace s.data with
      | .ok i => (i : Int) | .error _ => -1) =
      sentinel ((firstIdxP (chEq rbrace) s.data.reverse).map
        (fun i => s.data.length - 1 - i)) := by
    rw [pyRIndexOf_spec]
    rcases firstIdxP (chEq rbrace) s.data.reverse with _ | a <;> rfl
  have sRK : (match pyRIndexOf rbrack s.data with
      | .ok i => (i : Int) | .error _ => -1) =
      sentinel ((firstIdxP (chEq rbrack) s.data.reverse).map
        (fun i => s.data.length - 1 - i)) := by
    rw [pyRIndexOf_spec]
    rcases firstIdxP (chEq rbrack) s.data.reverse with _ | a <;> rfl
  have e2 : recover_structured_payload (.str s) =
      specAux s.data (firstOpenIdx s.data) (lastCloseIdx s.data) := rfl
  rw [e1, sB, sK, sRB, sRK, e2, firstOpenIdx_eq, lastCloseIdx_eq]
  exact implAux_eq_specAux s.data _ _ _ _

/-- C6: for every input — string or not — `parse_dirty_json` computes
exactly the spec's recovery algorithm: slice from the first opening
brace/bracket to the last closing brace/bracket and parse that slice with
the lenient grammar, returning `None` when no such bracketed region exists
or the lenient parse fails; every internally fallible step (`index`,
`rindex`, `dirtyjson.loads`) is locally handled, so the function is total
and never raises. -/
theorem C6_recovery_matches_spec :
    ∀ v, parse_dirty_json v = recover_structured_payload v := by
  intro v
  cases v with
  | str s => exact parse_dirty_json_str_eq s
  | pynone => rfl
  | int n => rfl
  | list xs => rfl
  | pybool b => rfl

theorem skipWs_cons {c : Char} (h : c.isWhitespace = false) (cs : List Char) :
    skipWs (c :: cs) = c :: cs := by
  simp [skipWs, List.dropWhile_cons, h]

theorem skipWs_space (cs : List Char) : skipWs (' ' :: cs) = skipWs cs := by
  simp [skipWs, List.dropWhile_cons]

theorem parseValue_space (f : Nat) (cs : List Char) :
    parseValue f (' ' :: cs) = parseValue f cs := by
  cases f with
  | zero => rfl
  | succ f =>
    simp only [parseValue]
    rw [skipWs_space]

theorem headOK_cons_eval (c : Char) (cs : List Char) :
    headOK (c :: cs) =
      (!c.isWhitespace && !(c == rbrack) && !(c == rbrace)) := rfl

theorem skipWs_headOK {cs : List Char} (h : headOK cs = true)
    (tail : List Char) : skipWs (cs ++ tail) = cs ++ tail := by
  cases cs with
  | nil => simp [headOK] at h
  | cons c cs2 =>
    rw [headOK_cons_eval, Bool.and_eq_true, Bool.and_eq_true] at h
    rw [List.cons_append]
    exact skipWs_cons (by simpa using h.1.1) _

theorem natChars_mem (n : Nat) : ∀ c ∈ natChars n, c ∈ digitList := by
  induction n using Nat.strong_induction_on with
  | _ n ih =>
    intro c hc
    rw [natChars] at hc
    split at hc
    · simp only [List.mem_singleton] at hc
      subst hc
      next h =>
        interval_cases n <;> decide
    · rcases List.mem_append.1 hc with h | h
      · exact ih (n / 10) (Nat.div_lt_self (by omega) (by decide)) c h
      · simp only [List.mem_singleton] at h
        subst h
        have h10 : n % 10 < 10 := Nat.mod_lt _ (by decide)
        generalize n % 10 = m at h10 ⊢
        interval_cases m <;> decide

theorem natChars_ne_nil (n : Nat) : natChars n ≠ [] := by
  rw [natChars]
  split <;> simp

theorem natChars_cons (n : Nat) :
    ∃ d ds, natChars n = d :: ds ∧ d ∈ digitList := by
  cases h : natChars n with
  | nil => exact absurd h (natChars_ne_nil n)
  | cons d ds =>
    exact ⟨d, ds, rfl, natChars_mem n d (h ▸ List.mem_cons_self d ds)⟩

theorem digitList_headfact :
    ∀ c ∈ digitList,
      (!c.isWhitespace && !(c == rbrack) && !(c == rbrace)) = true := by
  decide

theorem headOK_append {a : List Char} (h : a ≠ []) (b : List Char) :
    headOK (a ++ b) = headOK a := by
  cases a with
  | nil => exact absurd rfl h
  | cons c cs => rfl

theorem headOK_dumpV (v : Json) : headOK (dumpV v) = true := by
  cases v with
  | null => decide
  | bool b => cases b <;> decide
  | num n =>
    show headOK (intChars n) = true
    rw [intChars]
    split
    · rw [headOK_cons_eval]
      decide
    · obtain ⟨d, ds, hd, hmem⟩ := natChars_cons n.natAbs
      rw [hd, headOK_cons_eval]
      exact digitList_headfact d hmem
  | str s =>
    show headOK (strChars s) = true
    rw [strChars, List.cons_append, headOK_cons_eval]
    decide
  | arr xs =>
    show headOK (lbrack :: dumpElems xs ++ [rbrack]) = true
    rw [List.cons_append, headOK_cons_eval]
    decide
  | obj kvs =>
    show headOK (lbrace :: dumpFields kvs ++ [rbrace]) = true
    rw [List.cons_append, headOK_cons_eval]
    decide

theorem dumpV_ne_nil (v : Json) : dumpV v ≠ [] := by
  intro h
  have := headOK_dumpV v
  rw [h] at this
  simp [headOK] at this

theorem headOK_dumpElems {xs : List Json} (h : xs ≠ []) :
    headOK (dumpElems xs) = true := by
  match xs with
  | [x] => exact headOK_dumpV x
  | x :: y :: rest =>
    show headOK (dumpV x ++ _) = true
    rw [headOK_append (dumpV_ne_nil x)]
    exact headOK_dumpV x

theorem headOK_strChars (k : String) : headOK (strChars k) = true := by
  rw [strChars, List.cons_append, headOK_cons_eval]
  decide

theorem strChars_ne_nil (k : String) : strChars k ≠ [] := by
  rw [strChars]
  simp

theorem headOK_dumpFields {kvs : List (String × Json)} (h : kvs ≠ []) :
    headOK (dumpFields kvs) = true := by
  match kvs with
  | [(k, v)] =>
    rw [show dumpFields [(k, v)] = strChars k ++ ':' :: ' ' :: dumpV v
      from rfl]
    rw [headOK_append (strChars_ne_nil k)]
    exact headOK_strChars k
  | (k, v) :: f :: rest =>
    rw [show dumpFields ((k, v) :: f :: rest) =
        strChars k ++ ':' :: ' ' :: dumpV v ++ ',' :: ' ' ::
          dumpFields (f :: rest) from rfl, List.append_assoc]
    rw [headOK_append (strChars_ne_nil k)]
    exact headOK_strChars k

theorem digitsVal_append (a : Nat) (xs ys : List Char) :
    digitsVal a (xs ++ ys) = digitsVal (digitsVal a xs) ys := by
  induction xs generalizing a with
  | nil => rfl
  | cons c cs ih =>
    rw [List.cons_append,
      show digitsVal a (c :: (cs ++ ys)) =
        digitsVal (a * 10 + (c.toNat - 48)) (cs ++ ys) from rfl,
      show digitsVal a (c :: cs) =
        digitsVal (a * 10 + (c.toNat - 48)) cs from rfl, ih]

theorem digitChar_toNat {d : Nat} (h : d < 10) :
    (digitChar d).toNat = 48 + d := by
  interval_cases d <;> decide

theorem digitsVal_natChars (n : Nat) :
    ∀ a, digitsVal a (natChars n) = a * 10 ^ (natChars n).length + n := by
  induction n using Nat.strong_induction_on with
  | _ n ih =>
    intro a
    by_cases h : n < 10
    · rw [show natChars n = [digitChar n] from by
        rw [natChars]; exact dif_pos h]
      show a * 10 + ((digitChar n).toNat - 48) =
        a * 10 ^ ([digitChar n] : List Char).length + n
      rw [digitChar_toNat h]
      show a * 10 + (48 + n - 48) = a * 10 ^ 1 + n
      rw [pow_one]
      omega
    · rw [show natChars n = natChars (n / 10) ++ [digitChar (n % 10)] from by
        rw [natChars]; exact dif_neg h]
      rw [digitsVal_append,
        ih (n / 10) (Nat.div_lt_self (by omega) (by decide))]
      have h10 : n % 10 < 10 := Nat.mod_lt _ (by decide)
      show (a * 10 ^ (natChars (n / 10)).length + n / 10) * 10 +
          ((digitChar (n % 10)).toNat - 48) = _
      rw [digitChar_toNat h10, List.length_append, List.length_singleton,
        pow_succ]
      rw [show 48 + n % 10 - 48 = n % 10 from by omega]
      calc (a * 10 ^ (natChars (n / 10)).length + n / 10) * 10 + n % 10
          = a * (10 ^ (natChars (n / 10)).length * 10) +
              (n / 10 * 10 + n % 10) := by ring
        _ = a * (10 ^ (natChars (n / 10)).length * 10) + n := by
              rw [Nat.div_add_mod']

theorem takeWhile_all_append {p : Char → Bool} (ds rest : List Char)
    (hall : ∀ c ∈ ds, p c = true)
    (hrest : ∀ c cs, rest = c :: cs → p c = false) :
    (ds ++ rest).takeWhile p = ds ∧ (ds ++ rest).dropWhile p = rest := by
  induction ds with
  | nil =>
    cases rest with
    | nil => exact ⟨rfl, rfl⟩
    | cons c cs =>
      simp only [List.nil_append, List.takeWhile_cons, List.dropWhile_cons,
        hrest c cs rfl]
      exact ⟨rfl, rfl⟩
  | cons d ds ih =>
    have hd := hall d (List.mem_cons_self d ds)
    have ih2 := ih (fun c hc => hall c (List.mem_cons_of_mem d hc))
    simp [List.cons_append, List.takeWhile_cons, List.dropWhile_cons, hd,
      ih2.1, ih2.2]

theorem digitList_isDigit : ∀ c ∈ digitList, isDigitChar c = true := by
  decide

theorem numericExt_not_digit {rest : List Char}
    (h : numericExt rest = false) :
    ∀ c cs, rest = c :: cs → isDigitChar c = false := by
  intro c cs he
  subst he
  simp only [numericExt, Bool.or_eq_false_iff] at h
  exact h.1.1.1

theorem numericExt_numericTail {rest : List Char}
    (h : numericExt rest = false) : numericTail rest = false := by
  cases rest with
  | nil => rfl
  | cons c cs =>
    simp only [numericExt, Bool.or_eq_false_iff] at h
    simp only [numericTail, Bool.or_eq_false_iff]
    exact ⟨⟨h.1.1.2, h.1.2⟩, h.2⟩

theorem parseNatNum_natChars (m : Nat) (rest : List Char) (mk : Nat → Json)
    (hrest : numericExt rest = false) :
    parseNatNum (natChars m ++ rest) mk = some (mk m, rest) := by
  have hspan := takeWhile_all_append (p := isDigitChar) (natChars m) rest
    (fun c hc => digitList_isDigit c (natChars_mem m c hc))
    (numericExt_not_digit hrest)
  rw [parseNatNum]
  simp only [hspan.1, hspan.2]
  rw [if_neg (by simp [natChars_ne_nil m]), if_neg (by
    rw [numericExt_numericTail hrest]
    simp)]
  have hv := digitsVal_natChars m 0
  rw [show digitsVal 0 (natChars m) = m from by rw [hv]; ring]

theorem parseNum_intChars (n : Int) (rest : List Char)
    (hrest : numericExt rest = false) :
    parseNum (intChars n ++ rest) = some (.num n, rest) := by
  rw [intChars]
  split
  · next hneg =>
    rw [List.cons_append, parseNum, if_pos rfl,
      parseNatNum_natChars _ _ _ hrest,
      show (-((n.natAbs : Nat) : Int)) = n from by omega]
  · next hpos =>
    obtain ⟨d, ds, hd, hmem⟩ := natChars_cons n.natAbs
    rw [hd, List.cons_append, parseNum]
    rw [if_neg (by
      intro hcontra
      subst hcontra
      revert hmem
      decide)]
    rw [← List.cons_append, ← hd, parseNatNum_natChars _ _ _ hrest,
      show (((n.natAbs : Nat) : Int)) = n from by omega]

theorem parseStrChars_plain {c : Char} (h1 : ¬c = '"') (h2 : ¬c = '\\')
    (X : List Char) :
    parseStrChars '"' (c :: X) =
      (parseStrChars '"' X).map (fun p => (c :: p.1, p.2)) := by
  rw [parseStrChars.eq_def]
  simp only []
  rw [if_neg h1, if_neg h2]

theorem parseStrChars_quote (X : List Char) :
    parseStrChars '"' ('"' :: X) = some ([], X) := by
  rw [parseStrChars.eq_def]
  simp

theorem parseStrChars_esc (e c2 : Char) (hu : ¬e = 'u')
    (hesc : unescapeChar e = some c2) (X : List Char) :
    parseStrChars '"' ('\\' :: e :: X) =
      (parseStrChars '"' X).map (fun p => (c2 :: p.1, p.2)) := by
  rw [parseStrChars.eq_def]
  simp [hesc, hu]

theorem hexVal_hexDigitChar {d : Nat} (h : d < 16) :
    hexVal (hexDigitChar d) = some d := by
  interval_cases d <;> decide

theorem parseStrChars_unicode (h3 h4 : Char) (a b : Nat)
    (e3 : hexVal h3 = some a) (e4 : hexVal h4 = some b) (X : List Char) :
    parseStrChars '"' ('\\' :: 'u' :: '0' :: '0' :: h3 :: h4 :: X) =
      (parseStrChars '"' X).map
        (fun p => (Char.ofNat (a * 16 + b) :: p.1, p.2)) := by
  rw [parseStrChars.eq_def]
  simp [e3, e4, show hexVal '0' = some 0 from rfl]

theorem char_ofNat_toNat (c : Char) : Char.ofNat c.toNat = c :=
  Char.ofNat_toNat c

theorem parseStrChars_escaped (c : Char) (X : List Char) :
    parseStrChars '"' (escapeChar c ++ X) =
      (parseStrChars '"' X).map (fun p => (c :: p.1, p.2)) := by
  by_cases h1 : c = '"'
  · subst h1
    rw [show escapeChar '"' = ['\\', '"'] from rfl,
      show (['\\', '"'] : List Char) ++ X = '\\' :: '"' :: X from rfl]
    exact parseStrChars_esc '"' '"' (by decide) rfl X
  by_cases h2 : c = '\\'
  · subst h2
    rw [show escapeChar '\\' = ['\\', '\\'] from rfl,
      show (['\\', '\\'] : List Char) ++ X = '\\' :: '\\' :: X from rfl]
    exact parseStrChars_esc '\\' '\\' (by decide) rfl X
  by_cases h3 : c = '\n'
  · subst h3
    rw [show escapeChar '\n' = ['\\', 'n'] from rfl,
      show (['\\', 'n'] : List Char) ++ X = '\\' :: 'n' :: X from rfl]
    exact parseStrChars_esc 'n' '\n' (by decide) rfl X
  by_cases h4 : c = '\t'
  · subst h4
    rw [show escapeChar '\t' = ['\\', 't'] from rfl,
      show (['\\', 't'] : List Char) ++ X = '\\' :: 't' :: X from rfl]
    exact parseStrChars_esc 't' '\t' (by decide) rfl X
  by_cases h5 : c = '\r'
  · subst h5
    rw [show escapeChar '\r' = ['\\', 'r'] from rfl,
      show (['\\', 'r'] : List Char) ++ X = '\\' :: 'r' :: X from rfl]
    exact parseStrChars_esc 'r' '\r' (by decide) rfl X
  by_cases h6 : c = Char.ofNat 8
  · subst h6
    rw [show escapeChar (Char.ofNat 8) = ['\\', 'b'] from rfl,
      show (['\\', 'b'] : List Char) ++ X = '\\' :: 'b' :: X from rfl]
    exact parseStrChars_esc 'b' (Char.ofNat 8) (by decide) rfl X
  by_cases h7 : c = Char.ofNat 12
  · subst h7
    rw [show escapeChar (Char.ofNat 12) = ['\\', 'f'] from rfl,
      show (['\\', 'f'] : List Char) ++ X = '\\' :: 'f' :: X from rfl]
    exact parseStrChars_esc 'f' (Char.ofNat 12) (by decide) rfl X
  by_cases h8 : c.toNat < 32
  · rw [show escapeChar c = ['\\', 'u', '0', '0', hexDigitChar (c.toNat / 16),
        hexDigitChar (c.toNat % 16)] from by
        simp [escapeChar, h1, h2, h3, h4, h5, h6, h7, h8],
      show (['\\', 'u', '0', '0', hexDigitChar (c.toNat / 16),
        hexDigitChar (c.toNat % 16)] : List Char) ++ X =
        '\\' :: 'u' :: '0' :: '0' :: hexDigitChar (c.toNat / 16) ::
        hexDigitChar (c.toNat % 16) :: X from rfl]
    rw [parseStrChars_unicode (hexDigitChar (c.toNat / 16))
      (hexDigitChar (c.toNat % 16)) (c.toNat / 16) (c.toNat % 16)
      (hexVal_hexDigitChar (by omega)) (hexVal_hexDigitChar (by omega)) X]
    rw [show c.toNat / 16 * 16 + c.toNat % 16 = c.toNat from
      Nat.div_add_mod' c.toNat 16]
    rw [char_ofNat_toNat]
  · rw [show escapeChar c = [c] from by
        simp [escapeChar, h1, h2, h3, h4, h5, h6, h7, h8],
      List.singleton_append]
    exact parseStrChars_plain h1 h2 X

theorem parseStrChars_flatten (s : List Char) (X : List Char) :
    parseStrChars '"' ((s.map escapeChar).flatten ++ ('"' :: X)) =
      some (s, X) := by
  induction s with
  | nil =>
    simp only [List.map_nil, List.flatten_nil, List.nil_append]
    exact parseStrChars_quote X
  | cons c cs ih =>
    simp only [List.map_cons, List.flatten_cons, List.append_assoc]
    rw [parseStrChars_escaped, ih]
    rfl

theorem string_mk_data (s : String) : String.mk s.data = s := rfl

theorem strChars_append (s : String) (X : List Char) :
    strChars s ++ X =
      '"' :: ((s.data.map escapeChar).flatten ++ ('"' :: X)) := by
  simp [strChars]

theorem parseValue_succ (f : Nat) (cs : List Char) :
    parseValue (f + 1) cs =
      (match skipWs cs with
      | [] => Option.none
      | c :: rest =>
        if c = lbrace then
          match skipWs rest with
          | [] => Option.none
          | c2 :: rest2 =>
            if c2 = rbrace then some (.obj [], rest2)
            else
              (parseFields f (c2 :: rest2)).map
                (fun p => (Json.obj p.1, p.2))
        else if c = lbrack then
          match skipWs rest with
          | [] => Option.none
          | c2 :: rest2 =>
            if c2 = rbrack then some (.arr [], rest2)
            else
              (parseElems f (c2 :: rest2)).map (fun p => (Json.arr p.1, p.2))
        else if c = '"' ∨ c = '\'' then
          (parseStrChars c rest).map (fun p => (Json.str (String.mk p.1), p.2))
        else if c = 't' then
          (stripLit trueChars (c :: rest)).map (fun r => (Json.bool true, r))
        else if c = 'f' then
          (stripLit falseChars (c :: rest)).map (fun r => (Json.bool false, r))
        else if c = 'n' then
          (stripLit nullChars (c :: rest)).map (fun r => (Json.null, r))
        else parseNum (c :: rest)) := rfl

theorem parseElems_succ (f : Nat) (cs : List Char) :
    parseElems (f + 1) cs =
      (match parseValue f cs with
      | Option.none => Option.none
      | some (v, r) =>
        match skipWs r with
        | [] => Option.none
        | c :: r2 =>
          if c = ',' then
            match skipWs r2 with
            | [] => Option.none
            | c2 :: r3 =>
              if c2 = rbrack then some ([v], r3)
              else (parseElems f (c2 :: r3)).map (fun p => (v :: p.1, p.2))
          else if c = rbrack then some ([v], r2)
          else Option.none) := rfl

theorem parseFields_succ (f : Nat) (cs : List Char) :
    parseFields (f + 1) cs =
      (match parseKey cs with
      | Option.none => Option.none
      | some (k, r) =>
        match skipWs r with
        | [] => Option.none
        | c :: r2 =>
          if c = ':' then
            match parseValue f r2 with
            | Option.none => Option.none
            | some (v, r3) =>
              match skipWs r3 with
              | [] => Option.none
              | c2 :: r4 =>
                if c2 = ',' then
                  match skipWs r4 with
                  | [] => Option.none
                  | c3 :: r5 =>
                    if c3 = rbrace then some ([(k, v)], r5)
                    else
                      (parseFields f (c3 :: r5)).map
                        (fun p => ((k, v) :: p.1, p.2))
                else if c2 = rbrace then some ([(k, v)], r4)
                else Option.none
          else Option.none) := rfl

theorem parseValue_quote (f : Nat) (cs : List Char) :
    parseValue (f + 1) ('"' :: cs) =
      (parseStrChars '"' cs).map
        (fun p => (Json.str (String.mk p.1), p.2)) := rfl

theorem parseValue_strChars (f : Nat) (s : String) (rest : List Char) :
    parseValue (f + 1) (strChars s ++ rest) = some (Json.str s, rest) := by
  rw [strChars_append, parseValue_quote, parseStrChars_flatten]
  rfl

theorem stripLit_exact (lit rest : List Char) :
    stripLit lit (lit ++ rest) = some rest := by
  have h : lit.isPrefixOf (lit ++ rest) = true := by
    induction lit with
    | nil => simp [List.isPrefixOf]
    | cons a as ih => simp [List.isPrefixOf, ih]
  rw [stripLit, if_pos h, List.drop_left]

theorem parseValue_null (f : Nat) (rest : List Char) :
    parseValue (f + 1) (nullChars ++ rest) = some (Json.null, rest) := by
  show (stripLit nullChars ('n' :: 'u' :: 'l' :: 'l' :: rest)).map
      (fun r => (Json.null, r)) = some (Json.null, rest)
  rw [show ('n' :: 'u' :: 'l' :: 'l' :: rest) = nullChars ++ rest from rfl,
    stripLit_exact]
  rfl

theorem parseValue_true (f : Nat) (rest : List Char) :
    parseValue (f + 1) (trueChars ++ rest) = some (Json.bool true, rest) := by
  show (stripLit trueChars ('t' :: 'r' :: 'u' :: 'e' :: rest)).map
      (fun r => (Json.bool true, r)) = some (Json.bool true, rest)
  rw [show ('t' :: 'r' :: 'u' :: 'e' :: rest) = trueChars ++ rest from rfl,
    stripLit_exact]
  rfl

theorem parseValue_false (f : Nat) (rest : List Char) :
    parseValue (f + 1) (falseChars ++ rest) =
      some (Json.bool false, rest) := by
  show (stripLit falseChars ('f' :: 'a' :: 'l' :: 's' :: 'e' :: rest)).map
      (fun r => (Json.bool false, r)) = some (Json.bool false, rest)
  rw [show ('f' :: 'a' :: 'l' :: 's' :: 'e' :: rest) = falseChars ++ rest
      from rfl, stripLit_exact]
  rfl

theorem parseValue_num_head (c : Char) (hc : c ∈ '-' :: digitList)
    (f : Nat) (cs : List Char) :
    parseValue (f + 1) (c :: cs) = parseNum (c :: cs) := by
  fin_cases hc <;> rfl

theorem parseValue_num (f : Nat) (n : Int) (rest : List Char)
    (h : numericExt rest = false) :
    parseValue (f + 1) (intChars n ++ rest) = some (Json.num n, rest) := by
  have hhead : ∃ c cs, intChars n = c :: cs ∧ c ∈ '-' :: digitList := by
    rw [intChars]
    split
    · exact ⟨'-', _, rfl, List.mem_cons_self _ _⟩
    · obtain ⟨d, ds, hd, hmem⟩ := natChars_cons n.natAbs
      exact ⟨d, ds, hd, List.mem_cons_of_mem _ hmem⟩
  obtain ⟨c, cs, hd, hmem⟩ := hhead
  rw [hd, List.cons_append, parseValue_num_head c hmem, ← List.cons_append,
    ← hd, parseNum_intChars n rest h]

theorem parseValue_lbrack (f : Nat) (cs : List Char) :
    parseValue (f + 1) (lbrack :: cs) =
      (match skipWs cs with
      | [] => Option.none
      | c2 :: rest2 =>
        if c2 = rbrack then some (.arr [], rest2)
        else (parseElems f (c2 :: rest2)).map
          (fun p => (Json.arr p.1, p.2))) := rfl

theorem parseValue_lbrace (f : Nat) (cs : List Char) :
    parseValue (f + 1) (lbrace :: cs) =
      (match skipWs cs with
      | [] => Option.none
      | c2 :: rest2 =>
        if c2 = rbrace then some (.obj [], rest2)
        else (parseFields f (c2 :: rest2)).map
          (fun p => (Json.obj p.1, p.2))) := rfl

theorem parseKey_quote (X : List Char) :
    parseKey ('"' :: X) =
      (parseStrChars '"' X).map (fun p => (String.mk p.1, p.2)) := rfl

theorem parseKey_strChars (k : String) (Y : List Char) :
    parseKey (strChars k ++ Y) = some (k, Y) := by
  rw [strChars_append, parseKey_quote, parseStrChars_flatten]
  rfl

theorem ne_nil_of_headOK {cs : List Char} (h : headOK cs = true) :
    cs ≠ [] := by
  intro hc
  subst hc
  simp [headOK] at h

theorem headOK_facts {c : Char} {cs : List Char}
    (h : headOK (c :: cs) = true) :
    c.isWhitespace = false ∧ ¬c = rbrack ∧ ¬c = rbrace := by
  rw [headOK_cons_eval, Bool.and_eq_true, Bool.and_eq_true] at h
  refine ⟨by simpa using h.1.1, ?_, ?_⟩
  · intro hc
    subst hc
    simp at h
  · intro hc
    subst hc
    simp at h

theorem fuelV_pos (v : Json) : 1 ≤ fuelV v := by
  cases v <;> simp [fuelV]

set_option maxHeartbeats 1000000 in
/-- Adequacy of the lenient grammar on serialized output: with enough fuel
the parser inverts the printer, for values, element lists and member
lists simultaneously. -/
theorem roundtrip (f : Nat) :
    (∀ v rest, fuelV v ≤ f → numericExt rest = false →
      parseValue f (dumpV v ++ rest) = some (v, rest)) ∧
    (∀ xs rest, xs ≠ [] → fuelE xs ≤ f →
      parseElems f (dumpElems xs ++ rbrack :: rest) = some (xs, rest)) ∧
    (∀ kvs rest, kvs ≠ [] → fuelF kvs ≤ f →
      parseFields f (dumpFields kvs ++ rbrace :: rest) = some (kvs, rest)) := by
  induction f with
  | zero =>
    refine ⟨?_, ?_, ?_⟩
    · intro v rest hf _
      have := fuelV_pos v
      omega
    · intro xs rest hne hf
      cases xs with
      | nil => exact absurd rfl hne
      | cons x xs2 =>
        simp only [fuelE] at hf
        have := fuelV_pos x
        omega
    · intro kvs rest hne hf
      cases kvs with
      | nil => exact absurd rfl hne
      | cons kv kvs2 =>
        obtain ⟨k, v⟩ := kv
        simp only [fuelF] at hf
        have := fuelV_pos v
        omega
  | succ f ih =>
    obtain ⟨ihP, ihQ, ihR⟩ := ih
    refine ⟨?_, ?_, ?_⟩
    · intro v rest hf hre
      cases v with
      | null =>
        rw [show dumpV Json.null = nullChars from rfl, parseValue_null]
      | bool b =>
        cases b with
        | false =>
          rw [show dumpV (Json.bool false) = falseChars from rfl,
            parseValue_false]
        | true =>
          rw [show dumpV (Json.bool true) = trueChars from rfl,
            parseValue_true]
      | num n =>
        rw [show dumpV (Json.num n) = intChars n from rfl,
          parseValue_num f n rest hre]
      | str s =>
        rw [show dumpV (Json.str s) = strChars s from rfl,
          parseValue_strChars]
      | arr xs =>
        rw [show dumpV (Json.arr xs) = lbrack :: (dumpElems xs ++ [rbrack])
            from rfl,
          show (lbrack :: (dumpElems xs ++ [rbrack])) ++ rest =
            lbrack :: (dumpElems xs ++ rbrack :: rest) from by simp,
          parseValue_lbrack]
        cases xs with
        | nil =>
          rw [show dumpElems ([] : List Json) = [] from rfl]
          simp only [List.nil_append]
          rw [skipWs_cons (by decide)]
          simp only []
          rw [if_true]
        | cons x xs2 =>
          have hE : headOK (dumpElems (x :: xs2)) = true :=
            headOK_dumpElems (by simp)
          obtain ⟨c2, r2, hcons⟩ :=
            List.exists_cons_of_ne_nil (ne_nil_of_headOK hE)
          have hfacts := headOK_facts (hcons ▸ hE)
          rw [hcons, List.cons_append, skipWs_cons hfacts.1]
          simp only []
          rw [if_neg hfacts.2.1, ← List.cons_append, ← hcons,
            ihQ (x :: xs2) rest (by simp) (by
              simp only [fuelV] at hf
              omega)]
          rfl
      | obj kvs =>
        rw [show dumpV (Json.obj kvs) = lbrace :: (dumpFields kvs ++ [rbrace])
            from rfl,
          show (lbrace :: (dumpFields kvs ++ [rbrace])) ++ rest =
            lbrace :: (dumpFields kvs ++ rbrace :: rest) from by simp,
          parseValue_lbrace]
        cases kvs with
        | nil =>
          rw [show dumpFields ([] : List (String × Json)) = [] from rfl]
          simp only [List.nil_append]
          rw [skipWs_cons (by decide)]
          simp only []
          rw [if_true]
        | cons kv kvs2 =>
          have hE : headOK (dumpFields (kv :: kvs2)) = true :=
            headOK_dumpFields (by simp)
          obtain ⟨c2, r2, hcons⟩ :=
            List.exists_cons_of_ne_nil (ne_nil_of_headOK hE)
          have hfacts := headOK_facts (hcons ▸ hE)
          rw [hcons, List.cons_append, skipWs_cons hfacts.1]
          simp only []
          rw [if_neg hfacts.2.2, ← List.cons_append, ← hcons,
            ihR (kv :: kvs2) rest (by simp) (by
              simp only [fuelV] at hf
              omega)]
          rfl
    · intro xs rest hne hf
      cases xs with
      | nil => exact absurd rfl hne
      | cons x xs2 =>
        cases xs2 with
        | nil =>
          rw [show dumpElems [x] = dumpV x from rfl, parseElems_succ,
            ihP x (rbrack :: rest) (by
              simp only [fuelE] at hf
              omega) rfl]
          simp only []
          rw [skipWs_cons (by decide)]
          simp only []
          rw [if_neg (by decide), if_true]
        | cons y ys =>
          rw [show dumpElems (x :: y :: ys) =
              dumpV x ++ ',' :: ' ' :: dumpElems (y :: ys) from rfl,
            show (dumpV x ++ ',' :: ' ' :: dumpElems (y :: ys)) ++
              rbrack :: rest =
              dumpV x ++ ',' :: ' ' :: (dumpElems (y :: ys) ++ rbrack :: rest)
              from by simp]
          simp only [fuelE] at hf
          rw [parseElems_succ,
            ihP x (',' :: ' ' :: (dumpElems (y :: ys) ++ rbrack :: rest))
              (by omega) rfl]
          simp only []
          rw [skipWs_cons (by decide)]
          simp only []
          rw [if_true, skipWs_space]
          have hE : headOK (dumpElems (y :: ys)) = true :=
            headOK_dumpElems (by simp)
          rw [skipWs_headOK hE (rbrack :: rest)]
          obtain ⟨c2, r3, hcons⟩ :=
            List.exists_cons_of_ne_nil (ne_nil_of_headOK hE)
          have hfacts := headOK_facts (hcons ▸ hE)
          rw [hcons, List.cons_append]
          simp only []
          rw [if_neg hfacts.2.1, ← List.cons_append, ← hcons,
            ihQ (y :: ys) rest (by simp) (by
              simp only [fuelE]
              omega)]
          rfl
    · intro kvs rest hne hf
      cases kvs with
      | nil => exact absurd rfl hne
      | cons kv kvs2 =>
        obtain ⟨k, v⟩ := kv
        cases kvs2 with
        | nil =>
          rw [show dumpFields [(k, v)] =
              strChars k ++ ':' :: ' ' :: dumpV v from rfl,
            show (strChars k ++ ':' :: ' ' :: dumpV v) ++ rbrace :: rest =
              strChars k ++ ':' :: ' ' :: (dumpV v ++ rbrace :: rest)
              from by simp]
          simp only [fuelF] at hf
          rw [parseFields_succ, parseKey_strChars]
          simp only []
          rw [skipWs_cons (by decide)]
          simp only []
          rw [if_true, parseValue_space,
            ihP v (rbrace :: rest) (by omega) rfl]
          simp only []
          rw [skipWs_cons (by decide)]
          simp only []
          rw [if_neg (by decide), if_true]
        | cons g gs =>
          rw [show dumpFields ((k, v) :: g :: gs) =
              (strChars k ++ ':' :: ' ' :: dumpV v) ++
                ',' :: ' ' :: dumpFields (g :: gs) from rfl,
            show ((strChars k ++ ':' :: ' ' :: dumpV v) ++
                ',' :: ' ' :: dumpFields (g :: gs)) ++ rbrace :: rest =
              strChars k ++ ':' :: ' ' ::
                (dumpV v ++ ',' :: ' ' ::
                  (dumpFields (g :: gs) ++ rbrace :: rest)) from by simp]
          simp only [fuelF] at hf
          rw [parseFields_succ, parseKey_strChars]
          simp only []
          rw [skipWs_cons (by decide)]
          simp only []
          rw [if_true, parseValue_space,
            ihP v (',' :: ' ' :: (dumpFields (g :: gs) ++ rbrace :: rest))
              (by omega) rfl]
          simp only []
          rw [skipWs_cons (by decide)]
          simp only []
          rw [if_true, skipWs_space]
          have hE : headOK (dumpFields (g :: gs)) = true :=
            headOK_dumpFields (by simp)
          rw [skipWs_headOK hE (rbrace :: rest)]
          obtain ⟨c3, r5, hcons⟩ :=
            List.exists_cons_of_ne_nil (ne_nil_of_headOK hE)
          have hfacts := headOK_facts (hcons ▸ hE)
          rw [hcons, List.cons_append]
          simp only []
          rw [if_neg hfacts.2.2, ← List.cons_append, ← hcons,
            ihR (g :: gs) rest (by simp) (by
              simp only [fuelF]
              omega)]
          rfl

mutual

theorem fuelV_le : ∀ v : Json, fuelV v ≤ (dumpV v).length
  | .null => by
    show 1 ≤ (nullChars : List Char).length
    decide
  | .bool true => by
    show 1 ≤ (trueChars : List Char).length
    decide
  | .bool false => by
    show 1 ≤ (falseChars : List Char).length
    decide
  | .num n => by
    show 1 ≤ (intChars n).length
    refine List.length_pos.mpr ?_
    rw [intChars]
    split
    · simp
    · exact natChars_ne_nil _
  | .str s => by
    show 1 ≤ (strChars s).length
    rw [strChars]
    simp
  | .arr xs => by
    have h := fuelE_le xs
    show 1 + fuelE xs ≤ (lbrack :: (dumpElems xs ++ [rbrack])).length
    simp only [List.length_cons, List.length_append, List.length_nil]
    omega
  | .obj kvs => by
    have h := fuelF_le kvs
    show 1 + fuelF kvs ≤ (lbrace :: (dumpFields kvs ++ [rbrace])).length
    simp only [List.length_cons, List.length_append, List.length_nil]
    omega

theorem fuelE_le : ∀ xs : List Json, fuelE xs ≤ (dumpElems xs).length + 1
  | [] => by
    simp [fuelE, dumpElems]
  | [x] => by
    have h := fuelV_le x
    show 1 + fuelV x + fuelE [] ≤ (dumpV x).length + 1
    simp only [fuelE]
    omega
  | x :: y :: ys => by
    have h1 := fuelV_le x
    have h2 := fuelE_le (y :: ys)
    show 1 + fuelV x + fuelE (y :: ys) ≤
      (dumpV x ++ ',' :: ' ' :: dumpElems (y :: ys)).length + 1
    simp only [fuelE] at h2 ⊢
    simp only [List.length_append, List.length_cons]
    omega

theorem fuelF_le :
    ∀ kvs : List (String × Json), fuelF kvs ≤ (dumpFields kvs).length + 1
  | [] => by
    simp [fuelF, dumpFields]
  | [(k, v)] => by
    have h := fuelV_le v
    show 1 + fuelV v + fuelF [] ≤
      (strChars k ++ ':' :: ' ' :: dumpV v).length + 1
    simp only [fuelF]
    simp only [List.length_append, List.length_cons]
    omega
  | (k, v) :: (k2, v2) :: gs => by
    have h1 := fuelV_le v
    have h2 := fuelF_le ((k2, v2) :: gs)
    show 1 + fuelV v + fuelF ((k2, v2) :: gs) ≤
      ((strChars k ++ ':' :: ' ' :: dumpV v) ++
        ',' :: ' ' :: dumpFields ((k2, v2) :: gs)).length + 1
    simp only [fuelF] at h2 ⊢
    simp only [List.length_append, List.length_cons]
    omega

end

/-- `dirtyjson.loads` inverts `json.dumps` on every modelled value. -/
theorem loadsOpt_dumpV (v : Json) : loadsOpt (dumpV v) = some v := by
  have hP := (roundtrip ((dumpV v).length + 1)).1 v []
    (by
      have := fuelV_le v
      omega) rfl
  rw [List.append_nil] at hP
  rw [loadsOpt, dirtyLoads, hP]
  simp [skipWs]

theorem firstIdxP_head {p : Char → Bool} {c : Char} (h : p c = true)
    (cs : List Char) : firstIdxP p (c :: cs) = some 0 := by
  simp [firstIdxP, h]

theorem firstIdxP_append {p : Char → Bool} {a : List Char}
    (h : ∀ c ∈ a, p c = false) {b : List Char} {i : Nat}
    (hb : firstIdxP p b = some i) :
    firstIdxP p (a ++ b) = some (a.length + i) := by
  induction a with
  | nil => simpa using hb
  | cons c cs ih =>
    rw [List.cons_append]
    simp only [firstIdxP]
    rw [if_neg (by simp [h c (List.mem_cons_self c cs)]),
      ih (fun d hd => h d (List.mem_cons_of_mem c hd))]
    simp only [Option.map_some', Option.some.injEq, List.length_cons]
    omega

/-- C7: for every payload conforming to the registered event-payload shape
(a JSON object with string fields `user_id` and `session_id`),
`parse_dirty_json` applied to the payload's `json.dumps` serialization
returns the original payload, and the round-trip still holds when the
serialization is wrapped in arbitrary commentary text or fenced code
blocks (any wrapper whose prefix contains no opening brace/bracket and
whose suffix contains no closing brace/bracket). -/
theorem C7_roundtrip_wrapped (payload : Json)
    (hconf : conformsToEventPayloadB payload = true)
    (pre suf : List Char)
    (hpre : ∀ c ∈ pre, isOpenChar c = false)
    (hsuf : ∀ c ∈ suf, isCloseChar c = false) :
    parse_dirty_json (.str (String.mk (pre ++ dumpV payload ++ suf))) =
      some payload := by
  obtain ⟨kvs, rfl⟩ : ∃ kvs, payload = Json.obj kvs := by
    cases payload with
    | obj kvs => exact ⟨kvs, rfl⟩
    | null => exact absurd hconf (by simp [conformsToEventPayloadB])
    | bool b => exact absurd hconf (by simp [conformsToEventPayloadB])
    | num n => exact absurd hconf (by simp [conformsToEventPayloadB])
    | str s => exact absurd hconf (by simp [conformsToEventPayloadB])
    | arr xs => exact absurd hconf (by simp [conformsToEventPayloadB])
  rw [parse_dirty_json_str_eq]
  have e2 : recover_structured_payload
      (.str (String.mk (pre ++ dumpV (Json.obj kvs) ++ suf))) =
      specAux (pre ++ dumpV (Json.obj kvs) ++ suf)
        (firstOpenIdx (pre ++ dumpV (Json.obj kvs) ++ suf))
        (lastCloseIdx (pre ++ dumpV (Json.obj kvs) ++ suf)) := rfl
  rw [e2]
  have hx : 1 ≤ (dumpV (Json.obj kvs)).length :=
    List.length_pos.mpr (dumpV_ne_nil _)
  have hopen : firstOpenIdx (pre ++ dumpV (Json.obj kvs) ++ suf) =
      some pre.length := by
    rw [firstOpenIdx, List.append_assoc,
      firstIdxP_append hpre (b := dumpV (Json.obj kvs) ++ suf) (i := 0)
        (by
          rw [show dumpV (Json.obj kvs) ++ suf =
            lbrace :: ((dumpFields kvs ++ [rbrace]) ++ suf) from rfl]
          exact firstIdxP_head (by decide) _)]
    simp
  have hclose : lastCloseIdx (pre ++ dumpV (Json.obj kvs) ++ suf) =
      some (pre.length + (dumpV (Json.obj kvs)).length - 1) := by
    rw [lastCloseIdx]
    have hrev : (pre ++ dumpV (Json.obj kvs) ++ suf).reverse =
        suf.reverse ++
          (rbrace :: ((lbrace :: dumpFields kvs).reverse ++ pre.reverse)) := by
      rw [show dumpV (Json.obj kvs) =
        (lbrace :: dumpFields kvs) ++ [rbrace] from rfl]
      simp [List.reverse_append]
    rw [hrev,
      firstIdxP_append (fun c hc => hsuf c (by simpa using hc))
        (firstIdxP_head (by decide) _)]
    rw [show dumpV (Json.obj kvs) =
      (lbrace :: dumpFields kvs) ++ [rbrace] from rfl]
    simp only [Option.map_some', Option.some.injEq, List.length_reverse,
      List.length_append, List.length_cons, List.length_nil]
    omega
  rw [hopen, hclose]
  simp only [specAux]
  rw [if_pos (by omega)]
  rw [List.append_assoc, List.drop_left,
    show pre.length + (dumpV (Json.obj kvs)).length - 1 - pre.length + 1 =
      (dumpV (Json.obj kvs)).length from by omega,
    List.take_left, loadsOpt_dumpV]

/-- Witness: the concrete event payload round-trips through a fenced code
block wrapper. -/
theorem C7_roundtrip_wrapped_witness :
    conformsToEventPayloadB payloadW = true ∧
    (∀ c ∈ wrapPre, isOpenChar c = false) ∧
    (∀ c ∈ wrapSuf, isCloseChar c = false) ∧
    parse_dirty_json
      (.str (String.mk (wrapPre ++ dumpV payloadW ++ wrapSuf))) =
      some payloadW :=
  ⟨by decide, by decide, by decide,
    C7_roundtrip_wrapped payloadW (by decide) wrapPre wrapSuf (by decide)
      (by decide)⟩

end CoAgentRecruitment
